import Mathlib

/-!
Verification of the INVERSION repository's core parameter transformation:
a shallow embedding of `src/util/define_models.py` and
`src/util/partial_derivatives.py`, with theorems about the model builder
(`setup_starting_model`), the dm/ds and dm/dt sensitivity matrices, the
ratio scaling (`_scale_dvsv_dp_to_other_variables`), the Jacobian shape
(`_build_partial_derivatives_matrix`) and the reference-model smoothing
(`smooth_to_ref_model_below/above`).  Machine floats are modelled as exact
rationals; numpy arrays as lists; matrices filled in place as functions
`ℕ → ℕ → ℚ` updated column by column in the source's order.
-/

set_option autoImplicit false

/-- `define_models.InversionModel`: Vsv at layer nodes, layer thicknesses
(`thickness[i]` is the thickness of the layer above node `i`), and the indices
of the boundary-of-interest top nodes. -/
structure InversionModel where
  vsv : List ℚ
  thickness : List ℚ
  boundary_inds : List ℕ

namespace InversionModel

/-- `np.sum(model.thickness[:i])`: cumulative depth through the first `i`
thickness entries (so `depthAt (i+1)` is the depth `y_i` of node `i`). -/
def depthAt (m : InversionModel) (i : ℕ) : ℚ := (m.thickness.take i).sum

end InversionModel

/-- `partial_derivatives._convert_kernels_d_shallowerm_by_d_s`: writes into
column `i`, at card depths `y_{i-1} < z ≤ y_i`, the value
`(z - y_{i-1}) / thickness[i]`; leaves every other matrix entry alone. -/
def convert_kernels_d_shallowerm_by_d_s (m : InversionModel) (i : ℕ)
    (depth : List ℚ) (M : ℕ → ℕ → ℚ) : ℕ → ℕ → ℚ :=
  fun a j =>
    if j = i ∧ a < depth.length ∧ m.depthAt i < depth.getD a 0 ∧
        depth.getD a 0 ≤ m.depthAt (i+1) then
      (depth.getD a 0 - m.depthAt i) / m.thickness.getD i 0
    else M a j

/-- `partial_derivatives._convert_kernels_d_deeperm_by_d_s`: writes into
column `i`, at card depths `y_i ≤ z < y_{i+1}`, the value
`1 - (z - y_i) / thickness[i+1]`. -/
def convert_kernels_d_deeperm_by_d_s (m : InversionModel) (i : ℕ)
    (depth : List ℚ) (M : ℕ → ℕ → ℚ) : ℕ → ℕ → ℚ :=
  fun a j =>
    if j = i ∧ a < depth.length ∧ m.depthAt (i+1) ≤ depth.getD a 0 ∧
        depth.getD a 0 < m.depthAt (i+2) then
      1 - (depth.getD a 0 - m.depthAt (i+1)) / m.thickness.getD (i+1) 0
    else M a j

/-- One iteration of the column loop of `partial_derivatives._calculate_dm_ds`:
column 0 only gets the deeper fill, later columns get the shallower then the
deeper fill. -/
def dm_ds_step (m : InversionModel) (depth : List ℚ) (M : ℕ → ℕ → ℚ)
    (i : ℕ) : ℕ → ℕ → ℚ :=
  if i = 0 then convert_kernels_d_deeperm_by_d_s m 0 depth M
  else convert_kernels_d_deeperm_by_d_s m i depth
        (convert_kernels_d_shallowerm_by_d_s m i depth M)

/-- `partial_derivatives._calculate_dm_ds`: fill a zero matrix column by
column, for columns `0 ≤ i < len(vsv) - 1` (the last node is pinned). -/
def calculate_dm_ds (m : InversionModel) (depth : List ℚ) : ℕ → ℕ → ℚ :=
  (List.range (m.vsv.length - 1)).foldl (dm_ds_step m depth) (fun _ _ => 0)

/-- `partial_derivatives._convert_kernels_d_shallowerm_by_d_t`: writes into
column `i` (boundary `ib = boundary_inds[i]`), at card depths
`y_{ib-1} < z < y_ib`, the value `-((s_ib - s_{ib-1})·(z - y_{ib-1})) / t_i²`. -/
def convert_kernels_d_shallowerm_by_d_t (m : InversionModel) (i : ℕ)
    (depth : List ℚ) (M : ℕ → ℕ → ℚ) : ℕ → ℕ → ℚ :=
  fun a j =>
    if j = i ∧ a < depth.length ∧
        m.depthAt (m.boundary_inds.getD i 0) < depth.getD a 0 ∧
        depth.getD a 0 < m.depthAt (m.boundary_inds.getD i 0 + 1) then
      -((m.vsv.getD (m.boundary_inds.getD i 0) 0 -
          m.vsv.getD (m.boundary_inds.getD i 0 - 1) 0) *
        (depth.getD a 0 - m.depthAt (m.boundary_inds.getD i 0)))
        / (m.thickness.getD (m.boundary_inds.getD i 0) 0) ^ 2
    else M a j

/-- `partial_derivatives._convert_kernels_d_withinboundarym_by_d_t`: writes
into column `i`, at card depths `y_ib ≤ z < y_{ib+1}`, the constant
`-(s_{ib+1} - s_ib) / w_i`. -/
def convert_kernels_d_withinboundarym_by_d_t (m : InversionModel) (i : ℕ)
    (depth : List ℚ) (M : ℕ → ℕ → ℚ) : ℕ → ℕ → ℚ :=
  fun a j =>
    if j = i ∧ a < depth.length ∧
        m.depthAt (m.boundary_inds.getD i 0 + 1) ≤ depth.getD a 0 ∧
        depth.getD a 0 < m.depthAt (m.boundary_inds.getD i 0 + 2) then
      -((m.vsv.getD (m.boundary_inds.getD i 0 + 1) 0 -
          m.vsv.getD (m.boundary_inds.getD i 0) 0) /
        m.thickness.getD (m.boundary_inds.getD i 0 + 1) 0)
    else M a j

/-- `partial_derivatives._convert_kernels_d_deeperm_by_d_t`: writes into
column `i`, at card depths `y_{ib+1} ≤ z < y_{ib+2}`, the value
`(s_{ib+2} - s_{ib+1})·(z - y_{ib+2}) / (t_i - (y_{ib+2} - y_{ib-1} - w_i))²`. -/
def convert_kernels_d_deeperm_by_d_t (m : InversionModel) (i : ℕ)
    (depth : List ℚ) (M : ℕ → ℕ → ℚ) : ℕ → ℕ → ℚ :=
  fun a j =>
    if j = i ∧ a < depth.length ∧
        m.depthAt (m.boundary_inds.getD i 0 + 2) ≤ depth.getD a 0 ∧
        depth.getD a 0 < m.depthAt (m.boundary_inds.getD i 0 + 3) then
      (m.vsv.getD (m.boundary_inds.getD i 0 + 2) 0 -
        m.vsv.getD (m.boundary_inds.getD i 0 + 1) 0) *
        (depth.getD a 0 - m.depthAt (m.boundary_inds.getD i 0 + 3))
        / (m.thickness.getD (m.boundary_inds.getD i 0) 0 -
            (m.depthAt (m.boundary_inds.getD i 0 + 3) -
              m.depthAt (m.boundary_inds.getD i 0) -
              m.thickness.getD (m.boundary_inds.getD i 0 + 1) 0)) ^ 2
    else M a j

/-- One iteration of the boundary loop of
`partial_derivatives._calculate_dm_dt`: shallower, within-boundary, then
deeper fill, all into column `i`. -/
def dm_dt_step (m : InversionModel) (depth : List ℚ) (M : ℕ → ℕ → ℚ)
    (i : ℕ) : ℕ → ℕ → ℚ :=
  convert_kernels_d_deeperm_by_d_t m i depth
    (convert_kernels_d_withinboundarym_by_d_t m i depth
      (convert_kernels_d_shallowerm_by_d_t m i depth M))

/-- `partial_derivatives._calculate_dm_dt`: fill a zero matrix column by
column, one column per boundary of interest. -/
def calculate_dm_dt (m : InversionModel) (depth : List ℚ) : ℕ → ℕ → ℚ :=
  (List.range m.boundary_inds.length).foldl (dm_dt_step m depth) (fun _ _ => 0)

/-- Closed form for the final entries of `calculate_dm_ds` in column `j`
(the deeper fill is applied after the shallower fill, so it wins on overlap;
column `0` never receives a shallower fill). -/
def dmdsEntry (m : InversionModel) (depth : List ℚ) (a j : ℕ) : ℚ :=
  if a < depth.length ∧ m.depthAt (j+1) ≤ depth.getD a 0 ∧
      depth.getD a 0 < m.depthAt (j+2) then
    1 - (depth.getD a 0 - m.depthAt (j+1)) / m.thickness.getD (j+1) 0
  else if j ≠ 0 ∧ a < depth.length ∧ m.depthAt j < depth.getD a 0 ∧
      depth.getD a 0 ≤ m.depthAt (j+1) then
    (depth.getD a 0 - m.depthAt j) / m.thickness.getD j 0
  else 0

/-- Closed form for the final entries of `calculate_dm_dt` in column `i`
(deeper applied last, then within-boundary, then shallower). -/
def dmdtEntry (m : InversionModel) (depth : List ℚ) (a i : ℕ) : ℚ :=
  if a < depth.length ∧ m.depthAt (m.boundary_inds.getD i 0 + 2) ≤ depth.getD a 0 ∧
      depth.getD a 0 < m.depthAt (m.boundary_inds.getD i 0 + 3) then
    (m.vsv.getD (m.boundary_inds.getD i 0 + 2) 0 -
      m.vsv.getD (m.boundary_inds.getD i 0 + 1) 0) *
      (depth.getD a 0 - m.depthAt (m.boundary_inds.getD i 0 + 3))
      / (m.thickness.getD (m.boundary_inds.getD i 0) 0 -
          (m.depthAt (m.boundary_inds.getD i 0 + 3) -
            m.depthAt (m.boundary_inds.getD i 0) -
            m.thickness.getD (m.boundary_inds.getD i 0 + 1) 0)) ^ 2
  else if a < depth.length ∧ m.depthAt (m.boundary_inds.getD i 0 + 1) ≤ depth.getD a 0 ∧
      depth.getD a 0 < m.depthAt (m.boundary_inds.getD i 0 + 2) then
    -((m.vsv.getD (m.boundary_inds.getD i 0 + 1) 0 -
        m.vsv.getD (m.boundary_inds.getD i 0) 0) /
      m.thickness.getD (m.boundary_inds.getD i 0 + 1) 0)
  else if a < depth.length ∧ m.depthAt (m.boundary_inds.getD i 0) < depth.getD a 0 ∧
      depth.getD a 0 < m.depthAt (m.boundary_inds.getD i 0 + 1) then
    -((m.vsv.getD (m.boundary_inds.getD i 0) 0 -
        m.vsv.getD (m.boundary_inds.getD i 0 - 1) 0) *
      (depth.getD a 0 - m.depthAt (m.boundary_inds.getD i 0)))
      / (m.thickness.getD (m.boundary_inds.getD i 0) 0) ^ 2
  else 0

lemma shallower_s_apply (m : InversionModel) (i : ℕ) (depth : List ℚ)
    (M : ℕ → ℕ → ℚ) (a j : ℕ) :
    convert_kernels_d_shallowerm_by_d_s m i depth M a j =
      if j = i ∧ a < depth.length ∧ m.depthAt i < depth.getD a 0 ∧
          depth.getD a 0 ≤ m.depthAt (i+1) then
        (depth.getD a 0 - m.depthAt i) / m.thickness.getD i 0
      else M a j := rfl

lemma deeper_s_apply (m : InversionModel) (i : ℕ) (depth : List ℚ)
    (M : ℕ → ℕ → ℚ) (a j : ℕ) :
    convert_kernels_d_deeperm_by_d_s m i depth M a j =
      if j = i ∧ a < depth.length ∧ m.depthAt (i+1) ≤ depth.getD a 0 ∧
          depth.getD a 0 < m.depthAt (i+2) then
        1 - (depth.getD a 0 - m.depthAt (i+1)) / m.thickness.getD (i+1) 0
      else M a j := rfl

lemma dm_ds_step_ne (m : InversionModel) (depth : List ℚ) (M : ℕ → ℕ → ℚ)
    (i a j : ℕ) (hj : j ≠ i) : dm_ds_step m depth M i a j = M a j := by
  by_cases h0 : i = 0
  · subst h0
    simp [dm_ds_step, convert_kernels_d_deeperm_by_d_s, hj]
  · simp [dm_ds_step, convert_kernels_d_deeperm_by_d_s,
      convert_kernels_d_shallowerm_by_d_s, h0, hj]

lemma dm_dt_step_ne (m : InversionModel) (depth : List ℚ) (M : ℕ → ℕ → ℚ)
    (i a j : ℕ) (hj : j ≠ i) : dm_dt_step m depth M i a j = M a j := by
  simp [dm_dt_step, convert_kernels_d_deeperm_by_d_t,
    convert_kernels_d_withinboundarym_by_d_t,
    convert_kernels_d_shallowerm_by_d_t, hj]

lemma foldl_dm_ds_untouched (m : InversionModel) (depth : List ℚ)
    (l : List ℕ) (M : ℕ → ℕ → ℚ) (a j : ℕ) (hj : j ∉ l) :
    (l.foldl (dm_ds_step m depth) M) a j = M a j := by
  induction l generalizing M with
  | nil => rfl
  | cons k tl ih =>
    rw [List.foldl_cons, ih _ (fun h => hj (List.mem_cons_of_mem _ h))]
    exact dm_ds_step_ne m depth M k a j (fun h => hj (h ▸ List.mem_cons_self k tl))

lemma foldl_dm_dt_untouched (m : InversionModel) (depth : List ℚ)
    (l : List ℕ) (M : ℕ → ℕ → ℚ) (a j : ℕ) (hj : j ∉ l) :
    (l.foldl (dm_dt_step m depth) M) a j = M a j := by
  induction l generalizing M with
  | nil => rfl
  | cons k tl ih =>
    rw [List.foldl_cons, ih _ (fun h => hj (List.mem_cons_of_mem _ h))]
    exact dm_dt_step_ne m depth M k a j (fun h => hj (h ▸ List.mem_cons_self k tl))

lemma shallower_t_apply (m : InversionModel) (i : ℕ) (depth : List ℚ)
    (M : ℕ → ℕ → ℚ) (a j : ℕ) :
    convert_kernels_d_shallowerm_by_d_t m i depth M a j =
      if j = i ∧ a < depth.length ∧
          m.depthAt (m.boundary_inds.getD i 0) < depth.getD a 0 ∧
          depth.getD a 0 < m.depthAt (m.boundary_inds.getD i 0 + 1) then
        -((m.vsv.getD (m.boundary_inds.getD i 0) 0 -
            m.vsv.getD (m.boundary_inds.getD i 0 - 1) 0) *
          (depth.getD a 0 - m.depthAt (m.boundary_inds.getD i 0)))
          / (m.thickness.getD (m.boundary_inds.getD i 0) 0) ^ 2
      else M a j := rfl

lemma withinboundary_t_apply (m : InversionModel) (i : ℕ) (depth : List ℚ)
    (M : ℕ → ℕ → ℚ) (a j : ℕ) :
    convert_kernels_d_withinboundarym_by_d_t m i depth M a j =
      if j = i ∧ a < depth.length ∧
          m.depthAt (m.boundary_inds.getD i 0 + 1) ≤ depth.getD a 0 ∧
          depth.getD a 0 < m.depthAt (m.boundary_inds.getD i 0 + 2) then
        -((m.vsv.getD (m.boundary_inds.getD i 0 + 1) 0 -
            m.vsv.getD (m.boundary_inds.getD i 0) 0) /
          m.thickness.getD (m.boundary_inds.getD i 0 + 1) 0)
      else M a j := rfl

lemma deeper_t_apply (m : InversionModel) (i : ℕ) (depth : List ℚ)
    (M : ℕ → ℕ → ℚ) (a j : ℕ) :
    convert_kernels_d_deeperm_by_d_t m i depth M a j =
      if j = i ∧ a < depth.length ∧
          m.depthAt (m.boundary_inds.getD i 0 + 2) ≤ depth.getD a 0 ∧
          depth.getD a 0 < m.depthAt (m.boundary_inds.getD i 0 + 3) then
        (m.vsv.getD (m.boundary_inds.getD i 0 + 2) 0 -
          m.vsv.getD (m.boundary_inds.getD i 0 + 1) 0) *
          (depth.getD a 0 - m.depthAt (m.boundary_inds.getD i 0 + 3))
          / (m.thickness.getD (m.boundary_inds.getD i 0) 0 -
              (m.depthAt (m.boundary_inds.getD i 0 + 3) -
                m.depthAt (m.boundary_inds.getD i 0) -
                m.thickness.getD (m.boundary_inds.getD i 0 + 1) 0)) ^ 2
      else M a j := rfl

lemma dm_ds_step_self (m : InversionModel) (depth : List ℚ) (M : ℕ → ℕ → ℚ)
    (i a : ℕ) (h0 : M a i = 0) :
    dm_ds_step m depth M i a i = dmdsEntry m depth a i := by
  by_cases hi : i = 0
  · subst hi
    have hstep : dm_ds_step m depth M 0 = convert_kernels_d_deeperm_by_d_s m 0 depth M := rfl
    rw [hstep, deeper_s_apply, dmdsEntry]
    simp only [eq_self_iff_true, true_and, ne_eq, not_true_eq_false, false_and,
      if_false]
    split_ifs with h
    · rfl
    · exact h0
  · have hstep : dm_ds_step m depth M i
        = convert_kernels_d_deeperm_by_d_s m i depth
            (convert_kernels_d_shallowerm_by_d_s m i depth M) := by
      unfold dm_ds_step
      rw [if_neg hi]
    rw [hstep, deeper_s_apply, shallower_s_apply, dmdsEntry]
    simp only [eq_self_iff_true, true_and, ne_eq, hi, not_false_eq_true]
    split_ifs with h1 h2
    · rfl
    · rfl
    · exact h0

lemma dm_dt_step_self (m : InversionModel) (depth : List ℚ) (M : ℕ → ℕ → ℚ)
    (i a : ℕ) (h0 : M a i = 0) :
    dm_dt_step m depth M i a i = dmdtEntry m depth a i := by
  have hstep : dm_dt_step m depth M i
      = convert_kernels_d_deeperm_by_d_t m i depth
          (convert_kernels_d_withinboundarym_by_d_t m i depth
            (convert_kernels_d_shallowerm_by_d_t m i depth M)) := rfl
  rw [hstep, deeper_t_apply, withinboundary_t_apply, shallower_t_apply, dmdtEntry]
  simp only [eq_self_iff_true, true_and]
  split_ifs with h1 h2 h3
  · rfl
  · rfl
  · rfl
  · exact h0

lemma foldl_range_dm_ds (m : InversionModel) (depth : List ℚ) (n a j : ℕ) :
    ((List.range n).foldl (dm_ds_step m depth) (fun _ _ => 0)) a j
      = if j < n then dmdsEntry m depth a j else 0 := by
  induction n with
  | zero => simp
  | succ n ih =>
    rw [List.range_succ, List.foldl_append, List.foldl_cons, List.foldl_nil]
    by_cases hj : j = n
    · subst hj
      rw [if_pos (Nat.lt_succ_self j)]
      exact dm_ds_step_self m depth _ j a
        (by rw [foldl_dm_ds_untouched m depth _ _ a j (by simp)])
    · rw [dm_ds_step_ne m depth _ n a j hj, ih]
      by_cases h : j < n
      · rw [if_pos h, if_pos (by omega)]
      · rw [if_neg h, if_neg (by omega)]

lemma foldl_range_dm_dt (m : InversionModel) (depth : List ℚ) (n a j : ℕ) :
    ((List.range n).foldl (dm_dt_step m depth) (fun _ _ => 0)) a j
      = if j < n then dmdtEntry m depth a j else 0 := by
  induction n with
  | zero => simp
  | succ n ih =>
    rw [List.range_succ, List.foldl_append, List.foldl_cons, List.foldl_nil]
    by_cases hj : j = n
    · subst hj
      rw [if_pos (Nat.lt_succ_self j)]
      exact dm_dt_step_self m depth _ j a
        (by rw [foldl_dm_dt_untouched m depth _ _ a j (by simp)])
    · rw [dm_dt_step_ne m depth _ n a j hj, ih]
      by_cases h : j < n
      · rw [if_pos h, if_pos (by omega)]
      · rw [if_neg h, if_neg (by omega)]

/-- Entry characterization of `calculate_dm_ds`. -/
lemma calculate_dm_ds_entry (m : InversionModel) (depth : List ℚ) (a j : ℕ) :
    calculate_dm_ds m depth a j
      = if j < m.vsv.length - 1 then dmdsEntry m depth a j else 0 :=
  foldl_range_dm_ds m depth _ a j

/-- Entry characterization of `calculate_dm_dt`. -/
lemma calculate_dm_dt_entry (m : InversionModel) (depth : List ℚ) (a j : ℕ) :
    calculate_dm_dt m depth a j
      = if j < m.boundary_inds.length then dmdtEntry m depth a j else 0 :=
  foldl_range_dm_dt m depth _ a j

lemma take_sum_getD (l : List ℚ) (k : ℕ) :
    (l.take (k+1)).sum = (l.take k).sum + l.getD k 0 := by
  induction l generalizing k with
  | nil => simp
  | cons x tl ih =>
    cases k with
    | zero => simp
    | succ k =>
      simp only [List.take_succ_cons, List.sum_cons, List.getD_cons_succ, ih]
      ring

lemma depthAt_zero (m : InversionModel) : m.depthAt 0 = 0 := rfl

lemma depthAt_succ (m : InversionModel) (k : ℕ) :
    m.depthAt (k+1) = m.depthAt k + m.thickness.getD k 0 :=
  take_sum_getD _ _

/-- C2: for every InversionModel with strictly increasing node depths and every
non-pinned velocity-node index `i`, the dm/ds column `i` equals
`(z - y_{i-1}) / thickness[i]` for card depths `y_{i-1} < z ≤ y_i`, equals
`1 - (z - y_i) / thickness[i+1]` for `y_i ≤ z < y_{i+1}`, and is `0` at every
other card depth.  (Here `m.depthAt i` is `y_{i-1}` and `m.depthAt (i+1)` is
`y_i`; `thickness[0] = 0` is the data-model invariant of `InversionModel` and
positive later thicknesses express the strictly increasing depths.) -/
theorem claim_C2_dm_ds_column (m : InversionModel)
    (hlen : m.thickness.length = m.vsv.length)
    (h0 : m.thickness.getD 0 0 = 0)
    (hpos : ∀ k, 1 ≤ k → k < m.thickness.length → 0 < m.thickness.getD k 0)
    (i : ℕ) (hi : i + 1 < m.vsv.length)
    (depth : List ℚ) (a : ℕ) (ha : a < depth.length) :
    (m.depthAt i < depth.getD a 0 → depth.getD a 0 ≤ m.depthAt (i+1) →
      calculate_dm_ds m depth a i
        = (depth.getD a 0 - m.depthAt i) / m.thickness.getD i 0)
    ∧ (m.depthAt (i+1) ≤ depth.getD a 0 → depth.getD a 0 < m.depthAt (i+2) →
      calculate_dm_ds m depth a i
        = 1 - (depth.getD a 0 - m.depthAt (i+1)) / m.thickness.getD (i+1) 0)
    ∧ (¬(m.depthAt i < depth.getD a 0 ∧ depth.getD a 0 ≤ m.depthAt (i+1)) →
       ¬(m.depthAt (i+1) ≤ depth.getD a 0 ∧ depth.getD a 0 < m.depthAt (i+2)) →
      calculate_dm_ds m depth a i = 0) := by
  have key : calculate_dm_ds m depth a i = dmdsEntry m depth a i := by
    rw [calculate_dm_ds_entry, if_pos (by omega : i < m.vsv.length - 1)]
  have hine : m.depthAt i < depth.getD a 0 → depth.getD a 0 ≤ m.depthAt (i+1) → i ≠ 0 := by
    intro h1 h2 hiz
    subst hiz
    rw [depthAt_zero] at h1
    rw [depthAt_succ, depthAt_zero, h0] at h2
    linarith
  refine ⟨?_, ?_, ?_⟩
  · intro h1 h2
    have hne := hine h1 h2
    have hpi : 0 < m.thickness.getD i 0 :=
      hpos i (Nat.one_le_iff_ne_zero.mpr hne) (by omega)
    rw [key]
    unfold dmdsEntry
    by_cases hd : a < depth.length ∧ m.depthAt (i+1) ≤ depth.getD a 0 ∧
        depth.getD a 0 < m.depthAt (i+2)
    · rw [if_pos hd]
      have hz : depth.getD a 0 = m.depthAt (i+1) := le_antisymm h2 hd.2.1
      have hy : m.depthAt (i+1) = m.depthAt i + m.thickness.getD i 0 := depthAt_succ m i
      rw [hz, hy, sub_self, zero_div, sub_zero, add_sub_cancel_left, div_self hpi.ne']
    · rw [if_neg hd, if_pos ⟨hne, ha, h1, h2⟩]
  · intro h1 h2
    rw [key]
    unfold dmdsEntry
    rw [if_pos ⟨ha, h1, h2⟩]
  · intro hn1 hn2
    rw [key]
    unfold dmdsEntry
    rw [if_neg (fun h => hn2 ⟨h.2.1, h.2.2⟩),
      if_neg (fun h => hn1 ⟨h.2.2.1, h.2.2.2⟩)]

/-- Witness for C2 at a concrete model: nodes at depths 0, 2, 4, 6 with
velocities 3, 4, 5, 6; column 1 at card depth 1 equals (1 - 0)/2. -/
theorem claim_C2_witness :
    calculate_dm_ds ⟨[3, 4, 5, 6], [0, 2, 2, 2], []⟩ [1] 0 1 = 1/2 := by
  have h := claim_C2_dm_ds_column ⟨[3, 4, 5, 6], [0, 2, 2, 2], []⟩
    rfl rfl
    (by
      intro k h1 h2
      simp only [List.length_cons, List.length_nil] at h2
      interval_cases k <;> norm_num [List.getD])
    1 (by norm_num) [1] 0 (by norm_num)
  have h1 := h.1 (by norm_num [InversionModel.depthAt])
    (by norm_num [InversionModel.depthAt])
  rw [h1]
  norm_num [InversionModel.depthAt, List.getD]

/-- C1: for every InversionModel and boundary `i` with `ib = boundary_inds[i]`,
overlying thickness `t_i = thickness[ib] > 0` and width `w_i = thickness[ib+1] > 0`,
the dm/dt column `i` equals `-(s_ib - s_{ib-1})·(z - y_{ib-1})/t_i²` strictly
between `y_{ib-1}` and `y_ib`, the constant `-(s_{ib+1} - s_ib)/w_i` on
`[y_ib, y_{ib+1})`, `(s_{ib+2} - s_{ib+1})·(z - y_{ib+2})/(t_i - (y_{ib+2} - y_{ib-1} - w_i))²`
on `[y_{ib+1}, y_{ib+2})`, and `0` at every other card depth.
(`m.depthAt ib = y_{ib-1}`, `m.depthAt (ib+1) = y_ib`, etc.) -/
theorem claim_C1_dm_dt_column (m : InversionModel)
    (hlen : m.thickness.length = m.vsv.length)
    (i : ℕ) (hi : i < m.boundary_inds.length)
    (hib1 : 1 ≤ m.boundary_inds.getD i 0)
    (hib2 : m.boundary_inds.getD i 0 + 2 < m.vsv.length)
    (ht : 0 < m.thickness.getD (m.boundary_inds.getD i 0) 0)
    (hw : 0 < m.thickness.getD (m.boundary_inds.getD i 0 + 1) 0)
    (depth : List ℚ) (a : ℕ) (ha : a < depth.length) :
    (m.depthAt (m.boundary_inds.getD i 0) < depth.getD a 0 →
     depth.getD a 0 < m.depthAt (m.boundary_inds.getD i 0 + 1) →
      calculate_dm_dt m depth a i
        = -((m.vsv.getD (m.boundary_inds.getD i 0) 0 -
              m.vsv.getD (m.boundary_inds.getD i 0 - 1) 0) *
            (depth.getD a 0 - m.depthAt (m.boundary_inds.getD i 0)))
            / (m.thickness.getD (m.boundary_inds.getD i 0) 0) ^ 2)
    ∧ (m.depthAt (m.boundary_inds.getD i 0 + 1) ≤ depth.getD a 0 →
       depth.getD a 0 < m.depthAt (m.boundary_inds.getD i 0 + 2) →
      calculate_dm_dt m depth a i
        = -((m.vsv.getD (m.boundary_inds.getD i 0 + 1) 0 -
              m.vsv.getD (m.boundary_inds.getD i 0) 0) /
            m.thickness.getD (m.boundary_inds.getD i 0 + 1) 0))
    ∧ (m.depthAt (m.boundary_inds.getD i 0 + 2) ≤ depth.getD a 0 →
       depth.getD a 0 < m.depthAt (m.boundary_inds.getD i 0 + 3) →
      calculate_dm_dt m depth a i
        = (m.vsv.getD (m.boundary_inds.getD i 0 + 2) 0 -
            m.vsv.getD (m.boundary_inds.getD i 0 + 1) 0) *
            (depth.getD a 0 - m.depthAt (m.boundary_inds.getD i 0 + 3))
            / (m.thickness.getD (m.boundary_inds.getD i 0) 0 -
                (m.depthAt (m.boundary_inds.getD i 0 + 3) -
                  m.depthAt (m.boundary_inds.getD i 0) -
                  m.thickness.getD (m.boundary_inds.getD i 0 + 1) 0)) ^ 2)
    ∧ (¬(m.depthAt (m.boundary_inds.getD i 0) < depth.getD a 0 ∧
          depth.getD a 0 < m.depthAt (m.boundary_inds.getD i 0 + 1)) →
       ¬(m.depthAt (m.boundary_inds.getD i 0 + 1) ≤ depth.getD a 0 ∧
          depth.getD a 0 < m.depthAt (m.boundary_inds.getD i 0 + 2)) →
       ¬(m.depthAt (m.boundary_inds.getD i 0 + 2) ≤ depth.getD a 0 ∧
          depth.getD a 0 < m.depthAt (m.boundary_inds.getD i 0 + 3)) →
      calculate_dm_dt m depth a i = 0) := by
  have key : calculate_dm_dt m depth a i = dmdtEntry m depth a i := by
    rw [calculate_dm_dt_entry, if_pos hi]
  refine ⟨?_, ?_, ?_, ?_⟩
  · intro h1 h2
    have hle : m.depthAt (m.boundary_inds.getD i 0 + 1)
        ≤ m.depthAt (m.boundary_inds.getD i 0 + 2) := by
      rw [depthAt_succ m (m.boundary_inds.getD i 0 + 1)]
      linarith
    rw [key]
    unfold dmdtEntry
    rw [if_neg (fun h => absurd h.2.1 (not_le.mpr (lt_of_lt_of_le h2 hle))),
      if_neg (fun h => absurd h.2.1 (not_le.mpr h2)),
      if_pos ⟨ha, h1, h2⟩]
  · intro h1 h2
    rw [key]
    unfold dmdtEntry
    rw [if_neg (fun h => absurd h.2.1 (not_le.mpr h2)), if_pos ⟨ha, h1, h2⟩]
  · intro h1 h2
    rw [key]
    unfold dmdtEntry
    rw [if_pos ⟨ha, h1, h2⟩]
  · intro hnA hnB hnC
    rw [key]
    unfold dmdtEntry
    rw [if_neg (fun h => hnC ⟨h.2.1, h.2.2⟩),
      if_neg (fun h => hnB ⟨h.2.1, h.2.2⟩),
      if_neg (fun h => hnA ⟨h.2.1, h.2.2⟩)]

/-- Witness for C1 at a concrete model with one boundary (`ib = 1`, `t = 10`,
`w = 5`): at card depth 5 (above the boundary), column 0 equals
`-(0.5 · 5)/100 = -1/40`. -/
theorem claim_C1_witness :
    calculate_dm_dt ⟨[3, 7/2, 4, 9/2, 5], [0, 10, 5, 8, 6], [1]⟩ [5] 0 0
      = -(1/40) := by
  have h := claim_C1_dm_dt_column ⟨[3, 7/2, 4, 9/2, 5], [0, 10, 5, 8, 6], [1]⟩
    rfl 0 (by decide) (by decide) (by decide)
    (by norm_num [List.getD]) (by norm_num [List.getD])
    [5] 0 (by norm_num)
  have h1 := h.1 (by norm_num [InversionModel.depthAt, List.getD])
    (by norm_num [InversionModel.depthAt, List.getD])
  rw [h1]
  norm_num [InversionModel.depthAt, List.getD]

lemma dmdsEntry_eq_zero (m : InversionModel) (depth : List ℚ) (a j : ℕ)
    (h1 : ¬(m.depthAt j < depth.getD a 0 ∧ depth.getD a 0 ≤ m.depthAt (j+1)))
    (h2 : ¬(m.depthAt (j+1) ≤ depth.getD a 0 ∧ depth.getD a 0 < m.depthAt (j+2))) :
    dmdsEntry m depth a j = 0 := by
  unfold dmdsEntry
  rw [if_neg (fun h => h2 ⟨h.2.1, h.2.2⟩), if_neg (fun h => h1 ⟨h.2.2.1, h.2.2.2⟩)]

lemma thickness_getD_nonneg (m : InversionModel)
    (h0 : m.thickness.getD 0 0 = 0)
    (hpos : ∀ k, 1 ≤ k → k < m.thickness.length → 0 < m.thickness.getD k 0)
    (k : ℕ) : 0 ≤ m.thickness.getD k 0 := by
  rcases Nat.eq_zero_or_pos k with hk | hk
  · rw [hk, h0]
  · by_cases hk2 : k < m.thickness.length
    · exact (hpos k hk hk2).le
    · rw [List.getD_eq_default _ _ (le_of_not_lt hk2)]

lemma depthAt_monotone (m : InversionModel)
    (h0 : m.thickness.getD 0 0 = 0)
    (hpos : ∀ k, 1 ≤ k → k < m.thickness.length → 0 < m.thickness.getD k 0) :
    Monotone m.depthAt :=
  monotone_nat_of_le_succ (fun n => by
    rw [depthAt_succ]
    have := thickness_getD_nonneg m h0 hpos n
    linarith)

lemma depthAt_lt_succ (m : InversionModel)
    (hpos : ∀ k, 1 ≤ k → k < m.thickness.length → 0 < m.thickness.getD k 0)
    (k : ℕ) (hk1 : 1 ≤ k) (hk2 : k < m.thickness.length) :
    m.depthAt k < m.depthAt (k+1) := by
  rw [depthAt_succ]
  have := hpos k hk1 hk2
  linarith

lemma exists_greatest_below (P : ℕ → Prop) [DecidablePred P] (b : ℕ) (h0 : P 0) :
    ∃ i, P i ∧ i ≤ b ∧ ∀ k, i < k → k ≤ b → ¬ P k :=
  ⟨Nat.findGreatest P b, Nat.findGreatest_spec (Nat.zero_le b) h0,
    Nat.findGreatest_le b, fun k hk1 hk2 => Nat.findGreatest_is_greatest hk1 hk2⟩

/-- C10: for every InversionModel whose thicknesses after the first are all
strictly positive and every card depth `z` with `y_0 ≤ z ≤ y_{n-2}`, the row
of dm/ds at `z` sums to exactly 1 and every entry lies in `[0, 1]`. -/
theorem claim_C10_dm_ds_row_partition (m : InversionModel)
    (hlen : m.thickness.length = m.vsv.length)
    (h0 : m.thickness.getD 0 0 = 0)
    (hpos : ∀ k, 1 ≤ k → k < m.thickness.length → 0 < m.thickness.getD k 0)
    (hn : 2 ≤ m.vsv.length)
    (depth : List ℚ) (a : ℕ) (ha : a < depth.length)
    (hz0 : m.depthAt 1 ≤ depth.getD a 0)
    (hz1 : depth.getD a 0 ≤ m.depthAt (m.vsv.length - 1)) :
    (∑ j ∈ Finset.range (m.vsv.length - 1), calculate_dm_ds m depth a j) = 1
    ∧ ∀ j, 0 ≤ calculate_dm_ds m depth a j ∧ calculate_dm_ds m depth a j ≤ 1 := by
  have hmono := depthAt_monotone m h0 hpos
  constructor
  · have hP0 : m.depthAt (0+1) ≤ depth.getD a 0 := by simpa using hz0
    obtain ⟨i, hPi0, hile, hmax0⟩ :=
      exists_greatest_below (fun k => m.depthAt (k+1) ≤ depth.getD a 0)
        (m.vsv.length - 2) hP0
    have hPi : m.depthAt (i+1) ≤ depth.getD a 0 := hPi0
    have hmax : ∀ k, i < k → k ≤ m.vsv.length - 2 →
        ¬ m.depthAt (k+1) ≤ depth.getD a 0 := hmax0
    by_cases hnode : depth.getD a 0 = m.depthAt (i+1)
    · have hEi : calculate_dm_ds m depth a i = 1 := by
        rw [calculate_dm_ds_entry, if_pos (by omega)]
        unfold dmdsEntry
        have hlt : m.depthAt (i+1) < m.depthAt (i+2) :=
          depthAt_lt_succ m hpos (i+1) (by omega) (by omega)
        rw [if_pos ⟨ha, le_of_eq hnode.symm, by rw [hnode]; exact hlt⟩,
          hnode, sub_self, zero_div, sub_zero]
      have hzero : ∀ j ∈ Finset.range (m.vsv.length - 1), j ≠ i →
          calculate_dm_ds m depth a j = 0 := by
        intro j hj hne
        rw [Finset.mem_range] at hj
        rw [calculate_dm_ds_entry, if_pos hj]
        rcases lt_or_gt_of_ne hne with hlt | hgt
        · have hge : m.depthAt (j+2) ≤ depth.getD a 0 := by
            rw [hnode]
            exact hmono (by omega : j+2 ≤ i+1)
          have hth : 0 < m.thickness.getD (j+1) 0 := hpos (j+1) (by omega) (by omega)
          have hsj := depthAt_succ m (j+1)
          apply dmdsEntry_eq_zero
          · rintro ⟨h1, h2⟩
            linarith
          · rintro ⟨h1, h2⟩
            linarith
        · have hlt2 : depth.getD a 0 < m.depthAt (i+2) := by
            rw [hnode]
            exact depthAt_lt_succ m hpos (i+1) (by omega) (by omega)
          have hj1 : m.depthAt (i+1) ≤ m.depthAt j := hmono (by omega)
          have hj2 : m.depthAt (i+2) ≤ m.depthAt (j+1) := hmono (by omega)
          apply dmdsEntry_eq_zero
          · rintro ⟨h1, h2⟩
            rw [hnode] at h1
            linarith
          · rintro ⟨h1, h2⟩
            linarith
      rw [Finset.sum_eq_single i (fun b hb hbne => hzero b hb hbne)
        (fun hnotmem => absurd (Finset.mem_range.mpr (by omega)) hnotmem)]
      exact hEi
    · have hstrict : m.depthAt (i+1) < depth.getD a 0 :=
        hPi.lt_of_ne (fun h => hnode h.symm)
      have hiub : i < m.vsv.length - 2 := by
        rcases lt_or_eq_of_le hile with h | h
        · exact h
        · exfalso
          have he : m.vsv.length - 1 = i + 1 := by omega
          rw [he] at hz1
          linarith
      have hub : depth.getD a 0 < m.depthAt (i+2) :=
        not_le.mp (hmax (i+1) (by omega) (by omega))
      have hEi : calculate_dm_ds m depth a i
          = 1 - (depth.getD a 0 - m.depthAt (i+1)) / m.thickness.getD (i+1) 0 := by
        rw [calculate_dm_ds_entry, if_pos (by omega)]
        unfold dmdsEntry
        rw [if_pos ⟨ha, hPi, hub⟩]
      have hEi1 : calculate_dm_ds m depth a (i+1)
          = (depth.getD a 0 - m.depthAt (i+1)) / m.thickness.getD (i+1) 0 := by
        rw [calculate_dm_ds_entry, if_pos (by omega)]
        unfold dmdsEntry
        rw [if_neg (fun h => absurd h.2.1 (not_le.mpr hub)),
          if_pos ⟨Nat.succ_ne_zero i, ha, hstrict, hub.le⟩]
      have hzero : ∀ j ∈ Finset.range (m.vsv.length - 1), j ≠ i → j ≠ i+1 →
          calculate_dm_ds m depth a j = 0 := by
        intro j hj hne1 hne2
        rw [Finset.mem_range] at hj
        rw [calculate_dm_ds_entry, if_pos hj]
        rcases Nat.lt_or_ge j i with hlt | hge2
        · have hge : m.depthAt (j+2) ≤ depth.getD a 0 :=
            le_trans (hmono (by omega : j+2 ≤ i+1)) hPi
          have hthj : 0 < m.thickness.getD (j+1) 0 := hpos (j+1) (by omega) (by omega)
          have hsj := depthAt_succ m (j+1)
          apply dmdsEntry_eq_zero
          · rintro ⟨h1, h2⟩
            linarith
          · rintro ⟨h1, h2⟩
            linarith
        · have hj2 : m.depthAt (i+2) ≤ m.depthAt j := hmono (by omega)
          have hj3 : m.depthAt (i+2) ≤ m.depthAt (j+1) := hmono (by omega)
          apply dmdsEntry_eq_zero
          · rintro ⟨h1, h2⟩
            linarith
          · rintro ⟨h1, h2⟩
            linarith
      have hsum : ∀ j ∈ Finset.range (m.vsv.length - 1),
          calculate_dm_ds m depth a j
            = (if j = i then
                1 - (depth.getD a 0 - m.depthAt (i+1)) / m.thickness.getD (i+1) 0
              else 0)
              + (if j = i+1 then
                  (depth.getD a 0 - m.depthAt (i+1)) / m.thickness.getD (i+1) 0
                else 0) := by
        intro j hj
        by_cases hji : j = i
        · subst hji
          rw [if_pos rfl, if_neg (by omega), hEi]
          ring
        · by_cases hji1 : j = i+1
          · subst hji1
            rw [if_neg (by omega), if_pos rfl, hEi1]
            ring
          · rw [if_neg hji, if_neg hji1, hzero j hj hji hji1]
            ring
      rw [Finset.sum_congr rfl hsum, Finset.sum_add_distrib,
        Finset.sum_ite_eq' (Finset.range (m.vsv.length - 1)) i,
        Finset.sum_ite_eq' (Finset.range (m.vsv.length - 1)) (i+1),
        if_pos (Finset.mem_range.mpr (by omega)),
        if_pos (Finset.mem_range.mpr (by omega))]
      ring
  · intro j
    rw [calculate_dm_ds_entry]
    by_cases hj : j < m.vsv.length - 1
    · rw [if_pos hj]
      unfold dmdsEntry
      split_ifs with hc1 hc2
    
      · obtain ⟨-, h1, h2⟩ := hc1
        have hthj : 0 < m.thickness.getD (j+1) 0 := hpos (j+1) (by omega) (by omega)
        have hs := depthAt_succ m (j+1)
        constructor
        · have hq : (depth.getD a 0 - m.depthAt (j+1)) / m.thickness.getD (j+1) 0 ≤ 1 := by
            rw [div_le_one hthj]
            linarith
          linarith
        · have hq : 0 ≤ (depth.getD a 0 - m.depthAt (j+1)) / m.thickness.getD (j+1) 0 :=
            div_nonneg (by linarith) hthj.le
          linarith
      · obtain ⟨hj0, -, h1, h2⟩ := hc2
        have hthj : 0 < m.thickness.getD j 0 := hpos j (by omega) (by omega)
        have hs := depthAt_succ m j
        constructor
        · exact div_nonneg (by linarith) hthj.le
        · rw [div_le_one hthj]
          linarith
      · norm_num
    · rw [if_neg hj]
      norm_num

/-- Witness for C10: on the model with nodes at depths 0, 2, 4, 6 and card
depth 3, the dm/ds row sums to 1 and the entry in column 1 lies in `[0, 1]`. -/
theorem claim_C10_witness :
    (∑ j ∈ Finset.range 3, calculate_dm_ds ⟨[3, 4, 5, 6], [0, 2, 2, 2], []⟩ [3] 0 j) = 1
    ∧ 0 ≤ calculate_dm_ds ⟨[3, 4, 5, 6], [0, 2, 2, 2], []⟩ [3] 0 1 := by
  have h := claim_C10_dm_ds_row_partition ⟨[3, 4, 5, 6], [0, 2, 2, 2], []⟩
    rfl rfl
    (by
      intro k h1 h2
      simp only [List.length_cons, List.length_nil] at h2
      interval_cases k <;> norm_num [List.getD])
    (by norm_num) [3] 0 (by norm_num)
    (by norm_num [InversionModel.depthAt])
    (by norm_num [InversionModel.depthAt])
  exact ⟨h.1, (h.2 1).1⟩

/-- `define_models.SetupModel` (the ModelConfig): boundary a-priori data,
depth limits, minimum layer thickness and the fixed velocity ratios.
(`id`, `Moho` and the reference-card path are omitted: they only name outputs
or drive the density override, which no claim here touches.  `boundary_vsv`
holds two velocities per boundary, top then bottom.) -/
structure SetupModel where
  boundary_depths : List ℚ
  boundary_depth_uncertainty : List ℚ
  boundary_widths : List ℚ
  boundary_vsv : List ℚ
  depth_limits : ℚ × ℚ
  min_layer_thickness : ℚ
  vsv_vsh_ratio : ℚ
  vpv_vsv_ratio : ℚ
  vpv_vph_ratio : ℚ

/-- `partial_derivatives._scale_dvsv_dp_to_other_variables`: vertically stack
the Vsv block, the Vsh block (divided by vsv_vsh_ratio), the Vpv block
(times vpv_vsv_ratio), the Vph block (Vpv further divided by vpv_vph_ratio)
and a zero Eta block. -/
def scale_dvsv_dp_to_other_variables (dvsv_dp_mat : List (List ℚ))
    (sm : SetupModel) : List (List ℚ) :=
  dvsv_dp_mat
    ++ dvsv_dp_mat.map (fun row => row.map (fun x => x / sm.vsv_vsh_ratio))
    ++ dvsv_dp_mat.map (fun row => row.map (fun x => x * sm.vpv_vsv_ratio))
    ++ dvsv_dp_mat.map (fun row =>
        row.map (fun x => x * sm.vpv_vsv_ratio / sm.vpv_vph_ratio))
    ++ dvsv_dp_mat.map (fun row => row.map (fun _ => 0))

/-- Entry of a row-list matrix (0 outside the stored rows/columns). -/
def matEntry (X : List (List ℚ)) (r c : ℕ) : ℚ := (X.getD r []).getD c 0

lemma getD_map_nil (f : List ℚ → List ℚ) (hf : f [] = []) (M : List (List ℚ))
    (a : ℕ) : (M.map f).getD a [] = f (M.getD a []) := by
  induction M generalizing a with
  | nil => simp [hf]
  | cons r tl ih =>
    cases a with
    | zero => simp
    | succ a => simpa using ih a

lemma getD_map_zero (g : ℚ → ℚ) (hg : g 0 = 0) (row : List ℚ) (j : ℕ) :
    (row.map g).getD j 0 = g (row.getD j 0) := by
  induction row generalizing j with
  | nil => simp [hg]
  | cons x tl ih =>
    cases j with
    | zero => simp
    | succ j => simpa using ih j

lemma scale_row_getD (M : List (List ℚ)) (sm : SetupModel) (a : ℕ)
    (ha : a < M.length) :
    (scale_dvsv_dp_to_other_variables M sm).getD a [] = M.getD a []
    ∧ (scale_dvsv_dp_to_other_variables M sm).getD (M.length + a) []
        = (M.getD a []).map (fun x => x / sm.vsv_vsh_ratio)
    ∧ (scale_dvsv_dp_to_other_variables M sm).getD (2 * M.length + a) []
        = (M.getD a []).map (fun x => x * sm.vpv_vsv_ratio)
    ∧ (scale_dvsv_dp_to_other_variables M sm).getD (3 * M.length + a) []
        = (M.getD a []).map (fun x => x * sm.vpv_vsv_ratio / sm.vpv_vph_ratio)
    ∧ (scale_dvsv_dp_to_other_variables M sm).getD (4 * M.length + a) []
        = (M.getD a []).map (fun _ => (0 : ℚ)) := by
  unfold scale_dvsv_dp_to_other_variables
  refine ⟨?_, ?_, ?_, ?_, ?_⟩
  · rw [List.getD_append, List.getD_append, List.getD_append, List.getD_append]
    all_goals (try simp only [List.length_append, List.length_map])
    all_goals omega
  · rw [List.getD_append, List.getD_append, List.getD_append,
      List.getD_append_right]
    · rw [show M.length + a - M.length = a from by omega]
      exact getD_map_nil _ rfl M a
    all_goals (try simp only [List.length_append, List.length_map])
    all_goals omega
  · rw [List.getD_append, List.getD_append, List.getD_append_right]
    · rw [show 2 * M.length + a
          - (M ++ M.map (fun row => row.map (fun x => x / sm.vsv_vsh_ratio))).length = a
        from by simp only [List.length_append, List.length_map]; omega]
      exact getD_map_nil _ rfl M a
    all_goals (try simp only [List.length_append, List.length_map])
    all_goals omega
  · rw [List.getD_append, List.getD_append_right]
    · rw [show 3 * M.length + a
          - (M ++ M.map (fun row => row.map (fun x => x / sm.vsv_vsh_ratio))
              ++ M.map (fun row => row.map (fun x => x * sm.vpv_vsv_ratio))).length = a
        from by simp only [List.length_append, List.length_map]; omega]
      exact getD_map_nil _ rfl M a
    all_goals (try simp only [List.length_append, List.length_map])
    all_goals omega
  · rw [List.getD_append_right]
    · rw [show 4 * M.length + a
          - (M ++ M.map (fun row => row.map (fun x => x / sm.vsv_vsh_ratio))
              ++ M.map (fun row => row.map (fun x => x * sm.vpv_vsv_ratio))
              ++ M.map (fun row =>
                  row.map (fun x => x * sm.vpv_vsv_ratio / sm.vpv_vph_ratio))).length = a
        from by simp only [List.length_append, List.length_map]; omega]
      exact getD_map_nil _ rfl M a
    · simp only [List.length_append, List.length_map]
      omega

/-- C8: in the scaled dm/dp matrix, the blocks are stacked in the order
[Vsv, Vsh, Vpv, Vph, Eta] (five copies of the Vsv row count); for every entry,
Vsh = Vsv / vsv_vsh_ratio (so with ratio 2 every Vsh entry is exactly half the
Vsv entry), Vpv = Vsv · vpv_vsv_ratio, Vph = Vpv / vpv_vph_ratio, and the Eta
block is identically zero. -/
theorem claim_C8_ratio_scaling (M : List (List ℚ)) (sm : SetupModel) (a j : ℕ)
    (ha : a < M.length) :
    (scale_dvsv_dp_to_other_variables M sm).length = 5 * M.length
    ∧ matEntry (scale_dvsv_dp_to_other_variables M sm) a j = matEntry M a j
    ∧ matEntry (scale_dvsv_dp_to_other_variables M sm) (M.length + a) j
        = matEntry (scale_dvsv_dp_to_other_variables M sm) a j / sm.vsv_vsh_ratio
    ∧ matEntry (scale_dvsv_dp_to_other_variables M sm) (2 * M.length + a) j
        = matEntry (scale_dvsv_dp_to_other_variables M sm) a j * sm.vpv_vsv_ratio
    ∧ matEntry (scale_dvsv_dp_to_other_variables M sm) (3 * M.length + a) j
        = matEntry (scale_dvsv_dp_to_other_variables M sm) (2 * M.length + a) j
            / sm.vpv_vph_ratio
    ∧ matEntry (scale_dvsv_dp_to_other_variables M sm) (4 * M.length + a) j
        = 0 := by
  obtain ⟨h0, h1, h2, h3, h4⟩ := scale_row_getD M sm a ha
  have e0 : matEntry (scale_dvsv_dp_to_other_variables M sm) a j
      = matEntry M a j := by
    rw [matEntry, h0, matEntry]
  refine ⟨?_, e0, ?_, ?_, ?_, ?_⟩
  · unfold scale_dvsv_dp_to_other_variables
    simp [List.length_append]
    omega
  · rw [matEntry, h1,
      getD_map_zero (fun x => x / sm.vsv_vsh_ratio) (zero_div _) _ j, e0, matEntry]
  · rw [matEntry, h2,
      getD_map_zero (fun x => x * sm.vpv_vsv_ratio) (zero_mul _) _ j, e0, matEntry]
  · rw [matEntry, h3, matEntry, h2,
      getD_map_zero (fun x => x * sm.vpv_vsv_ratio / sm.vpv_vph_ratio)
        (by simp) _ j,
      getD_map_zero (fun x => x * sm.vpv_vsv_ratio) (zero_mul _) _ j]
  · rw [matEntry, h4, getD_map_zero (fun _ => (0 : ℚ)) rfl _ j]

/-- Witness for C8 with vsv_vsh_ratio = 2: the Vsh-block entry is exactly half
the corresponding Vsv-block entry. -/
theorem claim_C8_witness :
    matEntry (scale_dvsv_dp_to_other_variables [[1, 2], [3, 4]]
        ⟨[], [], [], [], (0, 0), 6, 2, 3, 5⟩) 2 1
      = matEntry (scale_dvsv_dp_to_other_variables [[1, 2], [3, 4]]
          ⟨[], [], [], [], (0, 0), 6, 2, 3, 5⟩) 0 1 / 2 := by
  have h := claim_C8_ratio_scaling [[1, 2], [3, 4]]
    ⟨[], [], [], [], (0, 0), 6, 2, 3, 5⟩ 0 1 (by norm_num)
  exact h.2.2.1

/-- The MINEOS kernel table consumed by `_build_MINEOS_G_matrix` (Rayleigh
wave type, as currently wired): `periods` holds the distinct periods in the
order produced by `np.unique(kernels.period)`, `depths` the distinct card
depths `kernels.z.unique()`, and each kernel column is a per-period vector
over those depths. -/
structure KernelTable where
  periods : List ℚ
  depths : List ℚ
  vsv : ℚ → List ℚ
  vpv : ℚ → List ℚ
  vph : ℚ → List ℚ
  eta : ℚ → List ℚ

/-- `partial_derivatives._hstack_frechet_kernels` for a Rayleigh kernel row:
Vsv, a zeroed Vsh block (`np.zeros_like(vsv)`), Vpv, Vph, Eta. -/
def hstack_frechet_kernels (kt : KernelTable) (p : ℚ) : List ℚ :=
  kt.vsv p ++ List.replicate (kt.vsv p).length 0 ++ kt.vpv p ++ kt.vph p ++ kt.eta p

/-- `partial_derivatives._build_MINEOS_G_matrix`: one stacked kernel row per
distinct period. -/
def build_MINEOS_G_matrix (kt : KernelTable) : List (List ℚ) :=
  kt.periods.map (hstack_frechet_kernels kt)

/-- The dm/ds matrix materialized as rows over the card depths: one column per
velocity node except the pinned deepest one. -/
def dm_ds_mat (m : InversionModel) (depth : List ℚ) : List (List ℚ) :=
  (List.range depth.length).map (fun a =>
    (List.range (m.vsv.length - 1)).map (fun j => calculate_dm_ds m depth a j))

/-- The dm/dt matrix materialized as rows over the card depths: one column per
boundary of interest. -/
def dm_dt_mat (m : InversionModel) (depth : List ℚ) : List (List ℚ) :=
  (List.range depth.length).map (fun a =>
    (List.range m.boundary_inds.length).map (fun j => calculate_dm_dt m depth a j))

/-- `partial_derivatives._convert_to_model_kernels`: horizontal stack
`np.hstack((dm_ds_mat, dm_dt_mat))`. -/
def convert_to_model_kernels (depth : List ℚ) (m : InversionModel) :
    List (List ℚ) :=
  List.zipWith (· ++ ·) (dm_ds_mat m depth) (dm_dt_mat m depth)

/-- `np.matmul` on row-list matrices: entry (i, j) is `∑ₖ A[i][k]·B[k][j]`;
the column count is read off the first row of `B`. -/
def matMul (A B : List (List ℚ)) : List (List ℚ) :=
  A.map (fun row =>
    (List.range (B.headD []).length).map (fun j =>
      (List.zipWith (fun x brow => x * brow.getD j 0) row B).sum))

/-- `partial_derivatives._build_partial_derivatives_matrix`:
`G = G_MINEOS @ (scale (dm/dp))`. -/
def build_partial_derivatives_matrix (kt : KernelTable) (m : InversionModel)
    (sm : SetupModel) : List (List ℚ) :=
  matMul (build_MINEOS_G_matrix kt)
    (scale_dvsv_dp_to_other_variables (convert_to_model_kernels kt.depths m) sm)

lemma headD_mem {α : Type} (l : List α) (d : α) (h : l ≠ []) : l.headD d ∈ l := by
  cases l with
  | nil => exact absurd rfl h
  | cons x tl => exact List.mem_cons_self x tl

/-- C7: the Jacobian `G` has one row per distinct period of the (Rayleigh-only)
kernel table and `len(vsv) - 1 + len(boundary_inds)` columns. -/
theorem claim_C7_jacobian_shape (kt : KernelTable) (m : InversionModel)
    (sm : SetupModel) (hd : kt.depths ≠ []) (hp : kt.periods ≠ []) :
    (build_partial_derivatives_matrix kt m sm).length = kt.periods.length
    ∧ ∀ row ∈ build_partial_derivatives_matrix kt m sm,
        row.length = (m.vsv.length - 1) + m.boundary_inds.length := by
  have hClen : (convert_to_model_kernels kt.depths m).length = kt.depths.length := by
    simp [convert_to_model_kernels, dm_ds_mat, dm_dt_mat]
  have hCne : convert_to_model_kernels kt.depths m ≠ [] := by
    intro h
    apply hd
    rw [← List.length_eq_zero, ← hClen, h]
    rfl
  have hCrows : ∀ row ∈ convert_to_model_kernels kt.depths m,
      row.length = (m.vsv.length - 1) + m.boundary_inds.length := by
    intro row hrow
    rw [List.mem_iff_get] at hrow
    obtain ⟨⟨i, hi⟩, rfl⟩ := hrow
    rw [List.get_eq_getElem]
    unfold convert_to_model_kernels dm_ds_mat dm_dt_mat
    rw [List.getElem_zipWith]
    simp
  have hhead : (scale_dvsv_dp_to_other_variables
      (convert_to_model_kernels kt.depths m) sm).headD []
      = (convert_to_model_kernels kt.depths m).headD [] := by
    unfold scale_dvsv_dp_to_other_variables
    obtain ⟨r0, tl, he⟩ := List.exists_cons_of_ne_nil hCne
    rw [he]
    rfl
  constructor
  · simp [build_partial_derivatives_matrix, matMul, build_MINEOS_G_matrix]
  · intro row hrow
    unfold build_partial_derivatives_matrix matMul at hrow
    rw [List.mem_map] at hrow
    obtain ⟨arow, -, rfl⟩ := hrow
    simp only [List.length_map, List.length_range]
    rw [hhead]
    exact hCrows _ (headD_mem _ [] hCne)

/-- Witness for C7: a two-period Rayleigh table over two depths with a
three-node model holding one boundary gives a 2-row, 3-column Jacobian. -/
theorem claim_C7_witness :
    (build_partial_derivatives_matrix
        ⟨[25, 50], [0, 5], fun _ => [1, 2], fun _ => [0, 0], fun _ => [0, 0],
          fun _ => [0, 0]⟩
        ⟨[3, 4, 5], [0, 2, 2], [1]⟩
        ⟨[], [], [], [], (0, 0), 6, 1, 1, 1⟩).length = 2
    ∧ ∀ row ∈ build_partial_derivatives_matrix
        ⟨[25, 50], [0, 5], fun _ => [1, 2], fun _ => [0, 0], fun _ => [0, 0],
          fun _ => [0, 0]⟩
        ⟨[3, 4, 5], [0, 2, 2], [1]⟩
        ⟨[], [], [], [], (0, 0), 6, 1, 1, 1⟩, row.length = 3 := by
  have h := claim_C7_jacobian_shape
    ⟨[25, 50], [0, 5], fun _ => [1, 2], fun _ => [0, 0], fun _ => [0, 0],
      fun _ => [0, 0]⟩
    ⟨[3, 4, 5], [0, 2, 2], [1]⟩
    ⟨[], [], [], [], (0, 0), 6, 1, 1, 1⟩
    (List.cons_ne_nil _ _) (List.cons_ne_nil _ _)
  exact ⟨h.1, h.2⟩

/-- Loop state of `define_models.setup_starting_model`: the growing thickness,
vsv and boundary-index lists. -/
structure BState where
  thickness : List ℚ
  vsv : List ℚ
  binds : List ℕ

/-- `max(1, int(gap // mlt))` from `setup_starting_model`: float floor
division, truncated to int (already integral), clipped below at 1. -/
def nLayersFor (mlt gap : ℚ) : ℕ := (max 1 ⌊gap / mlt⌋).toNat

/-- The `vsv += [vsv[-1] + grad * thick]` loop: each append reads the value
appended just before it, producing an arithmetic ramp of length `n`. -/
def appendRamp (v d : ℚ) : ℕ → List ℚ
  | 0 => []
  | n+1 => (v + d) :: appendRamp (v + d) d n

/-- `depth_top_layer_i = boundary_depths[k] - boundary_widths[k]/2`. -/
def depthTopL (sm : SetupModel) (k : ℕ) : ℚ :=
  sm.boundary_depths.getD k 0 - sm.boundary_widths.getD k 0 / 2

/-- `depth_base_layer_i = depth_top_layer_i + boundary_widths[k]`. -/
def depthBaseL (sm : SetupModel) (k : ℕ) : ℚ :=
  depthTopL sm k + sm.boundary_widths.getD k 0

/-- `padding = boundary_depth_uncertainty[k] + min_layer_thickness`. -/
def paddingL (sm : SetupModel) (k : ℕ) : ℚ :=
  sm.boundary_depth_uncertainty.getD k 0 + sm.min_layer_thickness

/-- `depth_top_layer_i_minus_1 = depth_top_layer_i - padding`. -/
def depthTopM1 (sm : SetupModel) (k : ℕ) : ℚ := depthTopL sm k - paddingL sm k

/-- `depth_base_layer_i_plus_1 = depth_base_layer_i + padding`. -/
def depthBaseP1 (sm : SetupModel) (k : ℕ) : ℚ := depthBaseL sm k + paddingL sm k

/-- `vsv[-1]`, the last velocity appended so far (the state list is never
empty). -/
def lastVsv (st : BState) : ℚ := st.vsv.getD (st.vsv.length - 1) 0

/-- One iteration of the boundary loop of `setup_starting_model`: fill the gap
down to `depth_top - padding` with `max(1, floor(gap/min_layer_thickness))`
equal layers ramping vsv, then append the pinning layer, the boundary layer at
its fixed width, and the padding layer below; record
`len(thickness) - 3 = old_len + n` as the boundary index. -/
def addBoundary (sm : SetupModel) (st : BState) (k : ℕ) : BState :=
  { thickness := st.thickness
      ++ List.replicate (nLayersFor sm.min_layer_thickness
            (depthTopM1 sm k - st.thickness.sum))
          ((depthTopM1 sm k - st.thickness.sum)
            / (nLayersFor sm.min_layer_thickness
                (depthTopM1 sm k - st.thickness.sum) : ℚ))
      ++ [depthTopL sm k - depthTopM1 sm k, sm.boundary_widths.getD k 0,
          depthBaseP1 sm k - depthBaseL sm k],
    vsv := st.vsv
      ++ appendRamp (lastVsv st)
          (((sm.boundary_vsv.getD (2*k) 0 - lastVsv st)
              / (depthTopL sm k - st.thickness.sum))
            * ((depthTopM1 sm k - st.thickness.sum)
                / (nLayersFor sm.min_layer_thickness
                    (depthTopM1 sm k - st.thickness.sum) : ℚ)))
          (nLayersFor sm.min_layer_thickness (depthTopM1 sm k - st.thickness.sum))
      ++ [sm.boundary_vsv.getD (2*k) 0, sm.boundary_vsv.getD (2*k+1) 0,
          sm.boundary_vsv.getD (2*k+1) 0],
    binds := st.binds ++ [st.thickness.length
      + nLayersFor sm.min_layer_thickness (depthTopM1 sm k - st.thickness.sum)] }

/-- The boundary loop of `setup_starting_model`, iterated over
`range(n_bounds)`, started from the single surface node at `depth_limits[0]`
with vsv interpolated from the reference model (the reference-model
interpolation `np.interp(d, ref_depth, ref_vs)` is abstracted as the function
`refVs`). -/
def setupFold (sm : SetupModel) (refVs : ℚ → ℚ) : ℕ → BState
  | 0 => ⟨[sm.depth_limits.1], [refVs sm.depth_limits.1], []⟩
  | j+1 => addBoundary sm (setupFold sm refVs j) j

/-- `define_models.setup_starting_model`: run the boundary loop, then fill
down to `depth_limits[1]` with `max(1, floor(remaining/min_layer_thickness))`
equal layers ramping vsv toward the reference velocity at the base. -/
def setup_starting_model (sm : SetupModel) (refVs : ℚ → ℚ) : InversionModel :=
  ⟨(setupFold sm refVs sm.boundary_depths.length).vsv
      ++ appendRamp (lastVsv (setupFold sm refVs sm.boundary_depths.length))
          (((refVs sm.depth_limits.2
              - lastVsv (setupFold sm refVs sm.boundary_depths.length))
            / (sm.depth_limits.2
                - (setupFold sm refVs sm.boundary_depths.length).thickness.sum))
            * ((sm.depth_limits.2
                - (setupFold sm refVs sm.boundary_depths.length).thickness.sum)
              / (nLayersFor sm.min_layer_thickness
                  (sm.depth_limits.2
                    - (setupFold sm refVs sm.boundary_depths.length).thickness.sum) : ℚ)))
          (nLayersFor sm.min_layer_thickness
            (sm.depth_limits.2
              - (setupFold sm refVs sm.boundary_depths.length).thickness.sum)),
   (setupFold sm refVs sm.boundary_depths.length).thickness
      ++ List.replicate
          (nLayersFor sm.min_layer_thickness
            (sm.depth_limits.2
              - (setupFold sm refVs sm.boundary_depths.length).thickness.sum))
          ((sm.depth_limits.2
              - (setupFold sm refVs sm.boundary_depths.length).thickness.sum)
            / (nLayersFor sm.min_layer_thickness
                (sm.depth_limits.2
                  - (setupFold sm refVs sm.boundary_depths.length).thickness.sum) : ℚ)),
   (setupFold sm refVs sm.boundary_depths.length).binds⟩

lemma nLayersFor_pos (mlt gap : ℚ) : 1 ≤ nLayersFor mlt gap := by
  unfold nLayersFor
  have h := le_max_left (1:ℤ) ⌊gap / mlt⌋
  omega

lemma nLayersFor_cast_ne_zero (mlt gap : ℚ) : (nLayersFor mlt gap : ℚ) ≠ 0 := by
  have h := nLayersFor_pos mlt gap
  have h2 : nLayersFor mlt gap ≠ 0 := by omega
  exact_mod_cast h2

lemma addBoundary_sum (sm : SetupModel) (st : BState) (k : ℕ) :
    (addBoundary sm st k).thickness.sum = depthBaseP1 sm k := by
  unfold addBoundary depthBaseP1 depthBaseL
  have hn := nLayersFor_cast_ne_zero sm.min_layer_thickness
    (depthTopM1 sm k - st.thickness.sum)
  simp only [List.sum_append, List.sum_replicate, nsmul_eq_mul, List.sum_cons,
    List.sum_nil]
  field_simp
  ring

/-- Validity of a ModelConfig for the §8 builder invariants: the inverted
region starts at the surface (the data model pins the first node at depth 0),
positive minimum layer thickness, consistent list lengths, non-negative widths
and uncertainties, non-overlapping padded boundaries that fit inside the depth
limits. -/
def ValidSetup (sm : SetupModel) : Prop :=
  sm.depth_limits.1 = 0
  ∧ 0 < sm.min_layer_thickness
  ∧ sm.boundary_depth_uncertainty.length = sm.boundary_depths.length
  ∧ sm.boundary_widths.length = sm.boundary_depths.length
  ∧ sm.boundary_vsv.length = 2 * sm.boundary_depths.length
  ∧ (∀ k, k < sm.boundary_depths.length →
      0 ≤ sm.boundary_depth_uncertainty.getD k 0 ∧ 0 ≤ sm.boundary_widths.getD k 0)
  ∧ (0 < sm.boundary_depths.length → 0 ≤ depthTopM1 sm 0)
  ∧ (∀ k, k + 1 < sm.boundary_depths.length → depthBaseP1 sm k ≤ depthTopM1 sm (k+1))
  ∧ (∀ k, k + 1 = sm.boundary_depths.length → depthBaseP1 sm k ≤ sm.depth_limits.2)
  ∧ (sm.boundary_depths.length = 0 → 0 ≤ sm.depth_limits.2)

lemma setupFold_succ (sm : SetupModel) (refVs : ℚ → ℚ) (j : ℕ) :
    setupFold sm refVs (j+1) = addBoundary sm (setupFold sm refVs j) j := rfl

lemma setupFold_invariant (sm : SetupModel) (refVs : ℚ → ℚ) (hv : ValidSetup sm) :
    ∀ j, j ≤ sm.boundary_depths.length →
    ((setupFold sm refVs j).thickness.sum
        = (if j = 0 then 0 else depthBaseP1 sm (j-1)))
    ∧ (setupFold sm refVs j).thickness.getD 0 0 = 0
    ∧ 0 < (setupFold sm refVs j).thickness.length
    ∧ (∀ x ∈ (setupFold sm refVs j).thickness, 0 ≤ x)
    ∧ (setupFold sm refVs j).binds.length = j
    ∧ (∀ l, l < j →
        (setupFold sm refVs j).binds.getD l 0 + 1
            < (setupFold sm refVs j).thickness.length
        ∧ (setupFold sm refVs j).thickness.getD
            ((setupFold sm refVs j).binds.getD l 0 + 1) 0
          = sm.boundary_widths.getD l 0) := by
  obtain ⟨hv1, hv2, hv3, hv4, hv5, hv6, hv7, hv8, hv9, hv10⟩ := hv
  intro j
  induction j with
  | zero =>
    intro _
    refine ⟨by simp [setupFold, hv1], by simp [setupFold, hv1],
      by simp [setupFold], ?_, by simp [setupFold], ?_⟩
    · intro x hx
      simp only [setupFold, List.mem_singleton] at hx
      rw [hx, hv1]
    · intro l hl
      exact absurd hl (Nat.not_lt_zero l)
  | succ j ih =>
    intro hj1
    have hj : j ≤ sm.boundary_depths.length := by omega
    obtain ⟨ihsum, ih0, ihlen, ihnn, ihbl, ihb⟩ := ih hj
    have hgap : 0 ≤ depthTopM1 sm j - (setupFold sm refVs j).thickness.sum := by
      rw [ihsum]
      by_cases h0 : j = 0
      · subst h0
        simpa using hv7 (by omega)
      · rw [if_neg h0]
        have h := hv8 (j-1) (by omega)
        have hjj : j - 1 + 1 = j := by omega
        rw [hjj] at h
        linarith
    have hpad : 0 ≤ paddingL sm j := by
      have h := (hv6 j (by omega)).1
      unfold paddingL
      linarith
    have hw : 0 ≤ sm.boundary_widths.getD j 0 := (hv6 j (by omega)).2
    have hthick : 0 ≤ (depthTopM1 sm j - (setupFold sm refVs j).thickness.sum)
        / (nLayersFor sm.min_layer_thickness
            (depthTopM1 sm j - (setupFold sm refVs j).thickness.sum) : ℚ) :=
      div_nonneg hgap (Nat.cast_nonneg _)
    rw [setupFold_succ]
    refine ⟨?_, ?_, ?_, ?_, ?_, ?_⟩
    · rw [addBoundary_sum, if_neg (Nat.succ_ne_zero j), Nat.add_sub_cancel]
    · unfold addBoundary
      rw [List.getD_append, List.getD_append]
      · exact ih0
      all_goals (try simp only [List.length_append, List.length_replicate])
      all_goals omega
    · unfold addBoundary
      simp only [List.length_append, List.length_replicate, List.length_cons,
        List.length_nil]
      omega
    · intro x hx
      unfold addBoundary at hx
      simp only [List.mem_append, List.mem_replicate, List.mem_cons,
        List.not_mem_nil, or_false] at hx
      rcases hx with (hx | ⟨-, rfl⟩) | (rfl | rfl | rfl)
      · exact ihnn x hx
      · exact hthick
      · have h : depthTopL sm j - depthTopM1 sm j = paddingL sm j := by
          unfold depthTopM1
          ring
        rw [h]
        exact hpad
      · exact hw
      · have h : depthBaseP1 sm j - depthBaseL sm j = paddingL sm j := by
          unfold depthBaseP1
          ring
        rw [h]
        exact hpad
    · unfold addBoundary
      simp only [List.length_append, List.length_cons, List.length_nil, ihbl]
    · intro l hl
      by_cases hlj : l < j
      · obtain ⟨hb1, hb2⟩ := ihb l hlj
        unfold addBoundary
        simp only []
        rw [List.getD_append _ _ _ _ (by omega : l < (setupFold sm refVs j).binds.length)]
        constructor
        · simp only [List.length_append, List.length_replicate, List.length_cons,
            List.length_nil]
          omega
        · rw [List.getD_append, List.getD_append]
          · exact hb2
          all_goals (try simp only [List.length_append, List.length_replicate])
          all_goals omega
      · have hlj2 : l = j := by omega
        subst hlj2
        unfold addBoundary
        simp only []
        rw [List.getD_append_right _ _ _ _ (by omega : (setupFold sm refVs l).binds.length ≤ l)]
        rw [show l - (setupFold sm refVs l).binds.length = 0 from by omega]
        simp only [List.getD_cons_zero]
        constructor
        · simp only [List.length_append, List.length_replicate, List.length_cons,
            List.length_nil]
          omega
        · rw [List.getD_append_right _ _ _ _ (by
            simp only [List.length_append, List.length_replicate]
            omega)]
          rw [show (setupFold sm refVs l).thickness.length
              + nLayersFor sm.min_layer_thickness
                  (depthTopM1 sm l - (setupFold sm refVs l).thickness.sum) + 1
              - ((setupFold sm refVs l).thickness
                  ++ List.replicate (nLayersFor sm.min_layer_thickness
                      (depthTopM1 sm l - (setupFold sm refVs l).thickness.sum))
                    ((depthTopM1 sm l - (setupFold sm refVs l).thickness.sum)
                      / (nLayersFor sm.min_layer_thickness
                          (depthTopM1 sm l - (setupFold sm refVs l).thickness.sum) : ℚ))).length
              = 1 from by
            simp only [List.length_append, List.length_replicate]
            omega]
          rfl

@[simp] lemma appendRamp_length (v d : ℚ) (n : ℕ) : (appendRamp v d n).length = n := by
  induction n generalizing v with
  | zero => rfl
  | succ n ih => simp [appendRamp, ih]

lemma setup_thickness_eq (sm : SetupModel) (refVs : ℚ → ℚ) :
    (setup_starting_model sm refVs).thickness
      = (setupFold sm refVs sm.boundary_depths.length).thickness
        ++ List.replicate
            (nLayersFor sm.min_layer_thickness
              (sm.depth_limits.2
                - (setupFold sm refVs sm.boundary_depths.length).thickness.sum))
            ((sm.depth_limits.2
                - (setupFold sm refVs sm.boundary_depths.length).thickness.sum)
              / (nLayersFor sm.min_layer_thickness
                  (sm.depth_limits.2
                    - (setupFold sm refVs sm.boundary_depths.length).thickness.sum) : ℚ)) :=
  rfl

lemma setup_binds_eq (sm : SetupModel) (refVs : ℚ → ℚ) :
    (setup_starting_model sm refVs).boundary_inds
      = (setupFold sm refVs sm.boundary_depths.length).binds := rfl

lemma getD_nonneg_of_forall (l : List ℚ) (h : ∀ x ∈ l, 0 ≤ x) (k : ℕ) :
    0 ≤ l.getD k 0 := by
  by_cases hk : k < l.length
  · rw [List.getD_eq_getElem _ _ hk]
    exact h _ (List.getElem_mem hk)
  · rw [List.getD_eq_default _ _ (le_of_not_lt hk)]

/-- C3: for every valid ModelConfig, the built model has `thickness[0] = 0`,
non-decreasing cumulative depths, one boundary index per configured boundary,
and the realized width `thickness[boundary_inds[l] + 1]` equals the configured
width exactly. -/
theorem claim_C3_builder_invariants (sm : SetupModel) (refVs : ℚ → ℚ)
    (hv : ValidSetup sm) :
    (setup_starting_model sm refVs).thickness.getD 0 0 = 0
    ∧ (∀ k, ((setup_starting_model sm refVs).thickness.take k).sum
        ≤ ((setup_starting_model sm refVs).thickness.take (k+1)).sum)
    ∧ (setup_starting_model sm refVs).boundary_inds.length
        = sm.boundary_depths.length
    ∧ (∀ l, l < sm.boundary_depths.length →
        (setup_starting_model sm refVs).thickness.getD
          ((setup_starting_model sm refVs).boundary_inds.getD l 0 + 1) 0
          = sm.boundary_widths.getD l 0) := by
  obtain ⟨hsum, h0, hlen, hnn, hbl, hb⟩ :=
    setupFold_invariant sm refVs hv sm.boundary_depths.length (le_refl _)
  have hdtb : 0 ≤ sm.depth_limits.2
      - (setupFold sm refVs sm.boundary_depths.length).thickness.sum := by
    rw [hsum]
    obtain ⟨hv1, hv2, hv3, hv4, hv5, hv6, hv7, hv8, hv9, hv10⟩ := hv
    by_cases hnb : sm.boundary_depths.length = 0
    · rw [if_pos hnb]
      have := hv10 hnb
      linarith
    · rw [if_neg hnb]
      have := hv9 (sm.boundary_depths.length - 1) (by omega)
      linarith
  have hall : ∀ x ∈ (setup_starting_model sm refVs).thickness, 0 ≤ x := by
    intro x hx
    rw [setup_thickness_eq, List.mem_append] at hx
    rcases hx with hx | hx
    · exact hnn x hx
    · rw [List.eq_of_mem_replicate hx]
      exact div_nonneg hdtb (Nat.cast_nonneg _)
  refine ⟨?_, ?_, ?_, ?_⟩
  · rw [setup_thickness_eq, List.getD_append _ _ _ _ (by omega)]
    exact h0
  · intro k
    rw [take_sum_getD]
    have := getD_nonneg_of_forall _ hall k
    linarith
  · rw [setup_binds_eq]
    exact hbl
  · intro l hl
    obtain ⟨hb1, hb2⟩ := hb l hl
    rw [setup_binds_eq, setup_thickness_eq, List.getD_append _ _ _ _ hb1]
    exact hb2

/-- The literal scenario of §8: one boundary at depth 30, width 5, uncertainty
2, `depth_limits = [0, 100]`, `min_layer_thickness = 6`,
`boundary_vsv = [4.0, 4.5]` (and the default velocity ratios). -/
def exampleConfig : SetupModel :=
  ⟨[30], [2], [5], [4, 9/2], (0, 100), 6, 1, 7/4, 1⟩

lemma exampleConfig_valid : ValidSetup exampleConfig := by
  refine ⟨rfl, by norm_num [exampleConfig], rfl, rfl, rfl, ?_, ?_, ?_, ?_, ?_⟩
  · intro k hk
    simp only [exampleConfig, List.length_cons, List.length_nil] at hk
    interval_cases k
    constructor <;> norm_num [exampleConfig, List.getD]
  · intro _
    norm_num [depthTopM1, depthTopL, paddingL, exampleConfig, List.getD]
  · intro k hk
    simp only [exampleConfig, List.length_cons, List.length_nil] at hk
    omega
  · intro k hk
    simp only [exampleConfig, List.length_cons, List.length_nil] at hk
    have hk0 : k = 0 := by omega
    subst hk0
    norm_num [depthBaseP1, depthBaseL, depthTopL, paddingL, exampleConfig, List.getD]
  · intro h
    simp only [exampleConfig, List.length_cons, List.length_nil] at h
    omega

lemma setupFold_zero_thickness (sm : SetupModel) (refVs : ℚ → ℚ) :
    (setupFold sm refVs 0).thickness = [sm.depth_limits.1] := rfl

lemma setupFold_zero_binds (sm : SetupModel) (refVs : ℚ → ℚ) :
    (setupFold sm refVs 0).binds = [] := rfl

@[simp] lemma setupFold_zero_vsv_length (sm : SetupModel) (refVs : ℚ → ℚ) :
    (setupFold sm refVs 0).vsv.length = 1 := rfl

lemma addBoundary_binds (sm : SetupModel) (st : BState) (k : ℕ) :
    (addBoundary sm st k).binds
      = st.binds ++ [st.thickness.length
          + nLayersFor sm.min_layer_thickness (depthTopM1 sm k - st.thickness.sum)] :=
  rfl

lemma addBoundary_thickness (sm : SetupModel) (st : BState) (k : ℕ) :
    (addBoundary sm st k).thickness
      = st.thickness
        ++ List.replicate (nLayersFor sm.min_layer_thickness
              (depthTopM1 sm k - st.thickness.sum))
            ((depthTopM1 sm k - st.thickness.sum)
              / (nLayersFor sm.min_layer_thickness
                  (depthTopM1 sm k - st.thickness.sum) : ℚ))
        ++ [depthTopL sm k - depthTopM1 sm k, sm.boundary_widths.getD k 0,
            depthBaseP1 sm k - depthBaseL sm k] := rfl

lemma addBoundary_vsv (sm : SetupModel) (st : BState) (k : ℕ) :
    (addBoundary sm st k).vsv
      = st.vsv
        ++ appendRamp (lastVsv st)
            (((sm.boundary_vsv.getD (2*k) 0 - lastVsv st)
                / (depthTopL sm k - st.thickness.sum))
              * ((depthTopM1 sm k - st.thickness.sum)
                  / (nLayersFor sm.min_layer_thickness
                      (depthTopM1 sm k - st.thickness.sum) : ℚ)))
            (nLayersFor sm.min_layer_thickness (depthTopM1 sm k - st.thickness.sum))
        ++ [sm.boundary_vsv.getD (2*k) 0, sm.boundary_vsv.getD (2*k+1) 0,
            sm.boundary_vsv.getD (2*k+1) 0] := rfl

lemma setup_vsv_eq (sm : SetupModel) (refVs : ℚ → ℚ) :
    (setup_starting_model sm refVs).vsv
      = (setupFold sm refVs sm.boundary_depths.length).vsv
        ++ appendRamp (lastVsv (setupFold sm refVs sm.boundary_depths.length))
            (((refVs sm.depth_limits.2
                - lastVsv (setupFold sm refVs sm.boundary_depths.length))
              / (sm.depth_limits.2
                  - (setupFold sm refVs sm.boundary_depths.length).thickness.sum))
              * ((sm.depth_limits.2
                  - (setupFold sm refVs sm.boundary_depths.length).thickness.sum)
                / (nLayersFor sm.min_layer_thickness
                    (sm.depth_limits.2
                      - (setupFold sm refVs sm.boundary_depths.length).thickness.sum) : ℚ)))
            (nLayersFor sm.min_layer_thickness
              (sm.depth_limits.2
                - (setupFold sm refVs sm.boundary_depths.length).thickness.sum)) :=
  rfl

/-- Witness for C3 at the literal §8 config (with an arbitrary concrete
reference velocity). -/
theorem claim_C3_witness :
    (setup_starting_model exampleConfig (fun _ => 17/5)).thickness.getD 0 0 = 0
    ∧ (setup_starting_model exampleConfig (fun _ => 17/5)).boundary_inds.length = 1
    ∧ ((setup_starting_model exampleConfig (fun _ => 17/5)).thickness.take 3).sum
        ≤ ((setup_starting_model exampleConfig (fun _ => 17/5)).thickness.take 4).sum := by
  have h := claim_C3_builder_invariants exampleConfig (fun _ => 17/5)
    exampleConfig_valid
  exact ⟨h.1, h.2.2.1, h.2.1 3⟩

lemma exampleConfig_fold0_thickness (refVs : ℚ → ℚ) :
    (setupFold exampleConfig refVs 0).thickness = [0] := rfl

lemma exampleConfig_nLayers :
    nLayersFor exampleConfig.min_layer_thickness
      (depthTopM1 exampleConfig 0 - List.sum ([0] : List ℚ)) = 3 := by
  norm_num [nLayersFor, depthTopM1, depthTopL, paddingL, exampleConfig, List.getD]
  decide

/-- C4: on the literal §8 scenario, the built model has one boundary index,
vsv exactly 4.0 at the boundary top node and 4.5 at the next node, and
realized boundary width exactly 5, for every reference-model interpolant. -/
theorem claim_C4_literal_scenario (refVs : ℚ → ℚ) :
    (setup_starting_model exampleConfig refVs).boundary_inds.length = 1
    ∧ (setup_starting_model exampleConfig refVs).boundary_inds.getD 0 0 = 4
    ∧ (setup_starting_model exampleConfig refVs).vsv.getD
        ((setup_starting_model exampleConfig refVs).boundary_inds.getD 0 0) 0 = 4
    ∧ (setup_starting_model exampleConfig refVs).vsv.getD
        ((setup_starting_model exampleConfig refVs).boundary_inds.getD 0 0 + 1) 0
        = 9/2
    ∧ (setup_starting_model exampleConfig refVs).thickness.getD
        ((setup_starting_model exampleConfig refVs).boundary_inds.getD 0 0 + 1) 0
        = 5 := by
  have hbinds : (setup_starting_model exampleConfig refVs).boundary_inds = [4] := by
    rw [setup_binds_eq]
    show (setupFold exampleConfig refVs (0+1)).binds = [4]
    rw [setupFold_succ, addBoundary_binds, setupFold_zero_binds,
      exampleConfig_fold0_thickness, exampleConfig_nLayers]
    norm_num
  have hth1 : (setupFold exampleConfig refVs
      exampleConfig.boundary_depths.length).thickness
      = [0] ++ List.replicate 3 (13/2) ++ [8, 5, 8] := by
    show (setupFold exampleConfig refVs (0+1)).thickness = _
    rw [setupFold_succ, addBoundary_thickness, exampleConfig_fold0_thickness,
      exampleConfig_nLayers]
    norm_num [depthTopM1, depthTopL, paddingL, depthBaseP1, depthBaseL,
      exampleConfig, List.getD]
  have hvlen : (setupFold exampleConfig refVs
      exampleConfig.boundary_depths.length).vsv.length = 7 := by
    show (setupFold exampleConfig refVs (0+1)).vsv.length = 7
    rw [setupFold_succ, addBoundary_vsv, exampleConfig_fold0_thickness,
      exampleConfig_nLayers]
    simp
  have h4 : (setup_starting_model exampleConfig refVs).vsv.getD 4 0 = 4 := by
    rw [setup_vsv_eq, List.getD_append _ _ _ _ (by rw [hvlen]; omega)]
    show (setupFold exampleConfig refVs (0+1)).vsv.getD 4 0 = 4
    rw [setupFold_succ, addBoundary_vsv, exampleConfig_fold0_thickness,
      exampleConfig_nLayers]
    rw [List.getD_append_right _ _ _ _ (by simp)]
    simp only [List.length_append, appendRamp_length, setupFold_zero_vsv_length]
    norm_num [exampleConfig, List.getD]
  have h5 : (setup_starting_model exampleConfig refVs).vsv.getD 5 0 = 9/2 := by
    rw [setup_vsv_eq, List.getD_append _ _ _ _ (by rw [hvlen]; omega)]
    show (setupFold exampleConfig refVs (0+1)).vsv.getD 5 0 = 9/2
    rw [setupFold_succ, addBoundary_vsv, exampleConfig_fold0_thickness,
      exampleConfig_nLayers]
    rw [List.getD_append_right _ _ _ _ (by simp)]
    simp only [List.length_append, appendRamp_length, setupFold_zero_vsv_length]
    norm_num [exampleConfig, List.getD]
  have h5t : (setup_starting_model exampleConfig refVs).thickness.getD 5 0 = 5 := by
    rw [setup_thickness_eq,
      List.getD_append _ _ _ _ (by rw [hth1]; simp)]
    rw [hth1, List.getD_append_right _ _ _ _ (by simp)]
    norm_num [List.getD]
  refine ⟨by rw [hbinds]; rfl, by rw [hbinds]; rfl, ?_, ?_, ?_⟩
  · rw [hbinds]
    exact h4
  · rw [hbinds]
    exact h5
  · rw [hbinds]
    exact h5t

lemma setupFold_thickness_mem_mono (sm : SetupModel) (refVs : ℚ → ℚ)
    (j1 j2 : ℕ) (h : j1 ≤ j2) (x : ℚ)
    (hx : x ∈ (setupFold sm refVs j1).thickness) :
    x ∈ (setupFold sm refVs j2).thickness := by
  induction j2 with
  | zero =>
    have hj : j1 = 0 := by omega
    subst hj
    exact hx
  | succ j2 ih =>
    by_cases hj : j1 = j2 + 1
    · subst hj
      exact hx
    · rw [setupFold_succ, addBoundary_thickness]
      exact List.mem_append_left _ (List.mem_append_left _ (ih (by omega)))

/-- Amended C6: `setup_starting_model` raises nothing on an overlapping
boundary configuration (no `ModelConstructionError` exists anywhere in the
code); instead, whenever boundary `k+1` has `depth_top - padding` shallower
than boundary `k`'s `depth_base + padding`, the returned model contains a
strictly negative layer thickness (so its cumulative depths decrease). -/
theorem claim_C6_amended_overlap_negative_thickness (sm : SetupModel)
    (refVs : ℚ → ℚ) (k : ℕ) (hk : k + 2 ≤ sm.boundary_depths.length)
    (hoverlap : depthTopM1 sm (k+1) < depthBaseP1 sm k) :
    ∃ x ∈ (setup_starting_model sm refVs).thickness, x < 0 := by
  have hsum : (setupFold sm refVs (k+1)).thickness.sum = depthBaseP1 sm k := by
    rw [setupFold_succ, addBoundary_sum]
  have hgap : depthTopM1 sm (k+1) - (setupFold sm refVs (k+1)).thickness.sum < 0 := by
    rw [hsum]
    linarith
  have hnpos : (0 : ℚ) < (nLayersFor sm.min_layer_thickness
      (depthTopM1 sm (k+1) - (setupFold sm refVs (k+1)).thickness.sum) : ℚ) := by
    have h := nLayersFor_pos sm.min_layer_thickness
      (depthTopM1 sm (k+1) - (setupFold sm refVs (k+1)).thickness.sum)
    exact_mod_cast Nat.lt_of_lt_of_le Nat.zero_lt_one h
  have hneg : (depthTopM1 sm (k+1) - (setupFold sm refVs (k+1)).thickness.sum)
      / (nLayersFor sm.min_layer_thickness
          (depthTopM1 sm (k+1) - (setupFold sm refVs (k+1)).thickness.sum) : ℚ)
      < 0 := div_neg_of_neg_of_pos hgap hnpos
  have hmem : (depthTopM1 sm (k+1) - (setupFold sm refVs (k+1)).thickness.sum)
      / (nLayersFor sm.min_layer_thickness
          (depthTopM1 sm (k+1) - (setupFold sm refVs (k+1)).thickness.sum) : ℚ)
      ∈ (setupFold sm refVs (k+2)).thickness := by
    rw [setupFold_succ, addBoundary_thickness]
    apply List.mem_append_left
    apply List.mem_append_right
    refine List.mem_replicate.mpr ⟨?_, rfl⟩
    have h := nLayersFor_pos sm.min_layer_thickness
      (depthTopM1 sm (k+1) - (setupFold sm refVs (k+1)).thickness.sum)
    omega
  refine ⟨_, ?_, hneg⟩
  rw [setup_thickness_eq]
  exact List.mem_append_left _
    (setupFold_thickness_mem_mono sm refVs (k+2) _ hk _ hmem)

/-- Two boundaries whose padded extents overlap: the second boundary's
`depth_top - padding = 24.5` is shallower than the first boundary's
`depth_base + padding = 40.5`. -/
def overlapConfig : SetupModel :=
  ⟨[30, 35], [2, 2], [5, 5], [4, 9/2, 23/5, 5], (0, 100), 6, 1, 7/4, 1⟩

lemma overlapConfig_fold0_thickness :
    (setupFold overlapConfig (fun _ => 0) 0).thickness = [0] := rfl

lemma overlapConfig_nLayers0 :
    nLayersFor overlapConfig.min_layer_thickness
      (depthTopM1 overlapConfig 0 - List.sum ([0] : List ℚ)) = 3 := by
  norm_num [nLayersFor, depthTopM1, depthTopL, paddingL, overlapConfig, List.getD]
  decide

lemma overlapConfig_fold1_thickness :
    (setupFold overlapConfig (fun _ => 0) (0+1)).thickness
      = [0] ++ List.replicate 3 (13/2) ++ [8, 5, 8] := by
  rw [setupFold_succ, addBoundary_thickness, overlapConfig_fold0_thickness,
    overlapConfig_nLayers0]
  norm_num [depthTopM1, depthTopL, paddingL, depthBaseP1, depthBaseL,
    overlapConfig, List.getD]

/-- Counterexample to C6 as stated: on the overlapping two-boundary config the
builder does not fail — it returns a model, whose 8th thickness entry is the
negative value −16 (the code contains no raise statement and no
`ModelConstructionError` class). -/
theorem claim_C6_counterexample :
    (setup_starting_model overlapConfig (fun _ => 0)).thickness.getD 7 0 = -16
    ∧ depthTopM1 overlapConfig 1 < depthBaseP1 overlapConfig 0 := by
  constructor
  · have hsum1 : (setupFold overlapConfig (fun _ => 0) (0+1)).thickness.sum
        = 81/2 := by
      rw [overlapConfig_fold1_thickness]
      norm_num [List.sum_append, List.sum_replicate]
    have hn2 : nLayersFor overlapConfig.min_layer_thickness
        (depthTopM1 overlapConfig 1
          - (setupFold overlapConfig (fun _ => 0) (0+1)).thickness.sum) = 1 := by
      rw [hsum1]
      norm_num [nLayersFor, depthTopM1, depthTopL, paddingL, overlapConfig,
        List.getD]
    have hlen1 : (setupFold overlapConfig (fun _ => 0) (0+1)).thickness.length
        = 7 := by
      rw [overlapConfig_fold1_thickness]
      simp
    have hth2 : (setup_starting_model overlapConfig (fun _ => 0)).thickness.getD 7 0
        = (setupFold overlapConfig (fun _ => 0) (0+1+1)).thickness.getD 7 0 := by
      rw [setup_thickness_eq]
      apply List.getD_append
      show 7 < (setupFold overlapConfig (fun _ => 0) (0+1+1)).thickness.length
      rw [setupFold_succ, addBoundary_thickness]
      simp only [List.length_append, List.length_replicate, List.length_cons,
        List.length_nil, hlen1]
      omega
    rw [hth2, setupFold_succ, addBoundary_thickness,
      List.getD_append _ _ _ _ (by
        simp only [List.length_append, List.length_replicate, hn2, hlen1]
        omega),
      List.getD_append_right _ _ _ _ (by rw [hlen1]),
      show (7:ℕ) - (setupFold overlapConfig (fun _ => 0) (0+1)).thickness.length = 0
        from by rw [hlen1],
      hn2, hsum1]
    norm_num [depthTopM1, depthTopL, paddingL, overlapConfig, List.getD,
      List.replicate]
  · norm_num [depthTopM1, depthTopL, paddingL, depthBaseP1, depthBaseL,
      overlapConfig, List.getD]

/-- Witness for the amended C6 at the concrete overlapping config. -/
theorem claim_C6_amended_witness :
    ∃ x ∈ (setup_starting_model overlapConfig (fun _ => 0)).thickness, x < 0 := by
  have h := claim_C6_amended_overlap_negative_thickness overlapConfig
    (fun _ => 0) 0 (by norm_num [overlapConfig])
    (by norm_num [depthTopM1, depthTopL, paddingL, depthBaseP1, depthBaseL,
      overlapConfig, List.getD])
  exact h

/-- `np.interp(x, xp, fp)` over a table of (radius, value) pairs with
increasing radii: clamped to the first/last value outside the table, linear
between adjacent points. -/
def interpPts (x : ℚ) : List (ℚ × ℚ) → ℚ
  | [] => 0
  | [p] => p.2
  | p :: q :: rest =>
    if x ≤ p.1 then p.2
    else if x ≤ q.1 then p.2 + (q.2 - p.2) * (x - p.1) / (q.1 - p.1)
    else interpPts x (q :: rest)

/-- `define_models.smooth_to_ref_model_below` for one non-radius column:
reference rows strictly below the 100 km band are kept unchanged; rows in the
band (`base ≤ r < new_model.radius[0]`, `base = new_model.radius[0] - 1e5` m)
get `(new_model_value[0] - interp(new_model.radius[0], ref)) · (r - base)/1e5`
added to the reference value at that row. -/
def smooth_to_ref_model_below (ref : List (ℚ × ℚ)) (newFirst : ℚ × ℚ) :
    List (ℚ × ℚ) :=
  (ref.filter (fun p => p.1 < newFirst.1 - 100000))
    ++ ((ref.filter (fun p => newFirst.1 - 100000 ≤ p.1 ∧ p.1 < newFirst.1)).map
        (fun p => (p.1, p.2 + (newFirst.2 - interpPts newFirst.1 ref)
            * ((p.1 - (newFirst.1 - 100000)) / 100000))))

/-- `define_models.smooth_to_ref_model_above` for one non-radius column:
rows in the band (`new_model.radius[-1] < r ≤ top`, `top = radius[-1] + 1e5`)
get `(new_model_value[-1] - interp(new_model.radius[-1], ref)) · (top - r)/1e5`
added; rows strictly above the band are kept unchanged, concatenated after. -/
def smooth_to_ref_model_above (ref : List (ℚ × ℚ)) (newLast : ℚ × ℚ) :
    List (ℚ × ℚ) :=
  ((ref.filter (fun p => newLast.1 < p.1 ∧ p.1 ≤ newLast.1 + 100000)).map
      (fun p => (p.1, p.2 + (newLast.2 - interpPts newLast.1 ref)
          * (((newLast.1 + 100000) - p.1) / 100000))))
    ++ (ref.filter (fun p => newLast.1 + 100000 < p.1))

/-- Amended C9: the splice is an offset taper, not a pointwise convex blend.
Every output row of `smooth_to_ref_model_below`/`above` is either an
unchanged out-of-band reference row, or an in-band reference row whose value
is the reference value at that radius plus `fraction · (new-model edge value
minus the reference interpolated at the edge radius)` — not
`fraction · new_edge + (1 - fraction) · ref(r)`. -/
theorem claim_C9_amended_offset_taper (ref : List (ℚ × ℚ))
    (newFirst newLast : ℚ × ℚ) (p : ℚ × ℚ) :
    (p ∈ smooth_to_ref_model_below ref newFirst ↔
      (p ∈ ref ∧ p.1 < newFirst.1 - 100000)
      ∨ ∃ q ∈ ref, (newFirst.1 - 100000 ≤ q.1 ∧ q.1 < newFirst.1)
          ∧ p = (q.1, q.2 + (newFirst.2 - interpPts newFirst.1 ref)
              * ((q.1 - (newFirst.1 - 100000)) / 100000)))
    ∧ (p ∈ smooth_to_ref_model_above ref newLast ↔
      (p ∈ ref ∧ newLast.1 + 100000 < p.1)
      ∨ ∃ q ∈ ref, (newLast.1 < q.1 ∧ q.1 ≤ newLast.1 + 100000)
          ∧ p = (q.1, q.2 + (newLast.2 - interpPts newLast.1 ref)
              * (((newLast.1 + 100000) - q.1) / 100000))) := by
  constructor
  · unfold smooth_to_ref_model_below
    simp only [List.mem_append, List.mem_filter, List.mem_map,
      decide_eq_true_eq]
    constructor
    · rintro (⟨h1, h2⟩ | ⟨q, ⟨hq1, hq2⟩, hq3⟩)
      · exact Or.inl ⟨h1, h2⟩
      · exact Or.inr ⟨q, hq1, hq2, hq3.symm⟩
    · rintro (⟨h1, h2⟩ | ⟨q, hq1, hq2, hq3⟩)
      · exact Or.inl ⟨h1, h2⟩
      · exact Or.inr ⟨q, ⟨hq1, hq2⟩, hq3.symm⟩
  · unfold smooth_to_ref_model_above
    simp only [List.mem_append, List.mem_filter, List.mem_map,
      decide_eq_true_eq]
    constructor
    · rintro (⟨q, ⟨hq1, hq2⟩, hq3⟩ | ⟨h1, h2⟩)
      · exact Or.inr ⟨q, hq1, hq2, hq3.symm⟩
      · exact Or.inl ⟨h1, h2⟩
    · rintro (⟨h1, h2⟩ | ⟨q, hq1, hq2, hq3⟩)
      · exact Or.inr ⟨h1, h2⟩
      · exact Or.inl ⟨q, ⟨hq1, hq2⟩, hq3.symm⟩

/-- A reference column that varies across the band, to separate the two blend
formulas. -/
def refExample : List (ℚ × ℚ) := [(0, 10), (150000, 20), (300000, 40)]

/-- Counterexample to C9 as stated: on `refExample` with the new model's base
row at radius 200000 and value 100, the in-band row at radius 150000 comes out
as `20 + (100 - 80/3)·(1/2) = 170/3`, while the claimed convex blend
`fraction·new_edge + (1-fraction)·ref(r)` gives `60 ≠ 170/3`. -/
theorem claim_C9_counterexample :
    smooth_to_ref_model_below refExample (200000, 100)
      = [(0, 10), (150000, 170/3)]
    ∧ (170/3 : ℚ) ≠ (150000 - (200000 - 100000)) / 100000 * 100
        + (1 - (150000 - (200000 - 100000)) / 100000) * 20 := by
  constructor
  · norm_num [smooth_to_ref_model_below, refExample, interpPts,
      List.filter_cons, List.filter_nil]
  · norm_num

/-- Counterexample to C5 as stated: on a model whose boundary has a
zero-thickness overlying layer (`t = thickness[1] = 0`) and zero width
(`w = thickness[2] = 0`), `_calculate_dm_dt` raises nothing and returns a
finite matrix — at card depth 2 the column value is `-(1/16)` (the
below-boundary formula); neither `NumericalDegeneracyError` nor
`MissingDataError` exists anywhere in the code. -/
theorem claim_C5_counterexample :
    calculate_dm_dt ⟨[3, 7/2, 4, 9/2, 5], [0, 0, 0, 4, 6], [1]⟩ [2] 0 0
      = -(1/16) := by
  rw [calculate_dm_dt_entry, if_pos (by norm_num)]
  norm_num [dmdtEntry, InversionModel.depthAt, List.getD]

/-- Amended C5: with a degenerate boundary (`t_i = 0` and `w_i = 0`) the
dm/dt computation still returns a result (no error is ever raised): the
above-boundary and within-boundary depth ranges are empty, so column `i` is
the below-boundary formula on `[y_{ib+1}, y_{ib+2})` and zero elsewhere. -/
theorem claim_C5_amended_degenerate_returns (m : InversionModel) (i : ℕ)
    (hi : i < m.boundary_inds.length)
    (ht : m.thickness.getD (m.boundary_inds.getD i 0) 0 = 0)
    (hw : m.thickness.getD (m.boundary_inds.getD i 0 + 1) 0 = 0)
    (depth : List ℚ) (a : ℕ) (ha : a < depth.length) :
    calculate_dm_dt m depth a i
      = if m.depthAt (m.boundary_inds.getD i 0 + 2) ≤ depth.getD a 0
          ∧ depth.getD a 0 < m.depthAt (m.boundary_inds.getD i 0 + 3) then
          (m.vsv.getD (m.boundary_inds.getD i 0 + 2) 0 -
            m.vsv.getD (m.boundary_inds.getD i 0 + 1) 0) *
            (depth.getD a 0 - m.depthAt (m.boundary_inds.getD i 0 + 3))
            / (m.thickness.getD (m.boundary_inds.getD i 0) 0 -
                (m.depthAt (m.boundary_inds.getD i 0 + 3) -
                  m.depthAt (m.boundary_inds.getD i 0) -
                  m.thickness.getD (m.boundary_inds.getD i 0 + 1) 0)) ^ 2
        else 0 := by
  have h1 : m.depthAt (m.boundary_inds.getD i 0 + 1)
      = m.depthAt (m.boundary_inds.getD i 0) := by
    rw [depthAt_succ, ht, add_zero]
  have h2 : m.depthAt (m.boundary_inds.getD i 0 + 2)
      = m.depthAt (m.boundary_inds.getD i 0) := by
    rw [depthAt_succ, hw, add_zero, h1]
  rw [calculate_dm_dt_entry, if_pos hi]
  unfold dmdtEntry
  by_cases hd : m.depthAt (m.boundary_inds.getD i 0 + 2) ≤ depth.getD a 0
      ∧ depth.getD a 0 < m.depthAt (m.boundary_inds.getD i 0 + 3)
  · rw [if_pos ⟨ha, hd.1, hd.2⟩, if_pos hd]
  · rw [if_neg (fun h => hd ⟨h.2.1, h.2.2⟩), if_neg hd,
      if_neg (fun h => by
        have hx := h.2.1
        have hy := h.2.2
        rw [h1] at hx
        rw [h2] at hy
        linarith),
      if_neg (fun h => by
        have hx := h.2.1
        have hy := h.2.2
        rw [h1] at hy
        linarith)]

/-- Witness for the amended C5: on the degenerate model, at a card depth below
every affected region, the returned column value is 0 (a result, not an
error). -/
theorem claim_C5_amended_witness :
    calculate_dm_dt ⟨[3, 7/2, 4, 9/2, 5], [0, 0, 0, 4, 6], [1]⟩ [5] 0 0 = 0 := by
  have h := claim_C5_amended_degenerate_returns
    ⟨[3, 7/2, 4, 9/2, 5], [0, 0, 0, 4, 6], [1]⟩ 0 (by norm_num)
    (by norm_num [List.getD]) (by norm_num [List.getD]) [5] 0 (by norm_num)
  rw [h]
  norm_num [InversionModel.depthAt, List.getD]
